import Mathlib

/-!
# Verification of the categorizer job-processing core

A shallow embedding of the job execution core of the `categorizer`
repository, together with theorems checking the natural-language
specification against the code.

Embedded sources:
* `src/lib/db.ts` — the Persistence Gateway: `withRetry` (exponential
  backoff over a closed retryability classifier) and `upsertWord`.
* `src/lib/session.ts` — the `ProcessingService` class: session creation,
  resume, the chunked processing loop, per-word tracking, ETA/cost
  metrics, and event emission.
* `src/app/api/processing-sessions/[id]/route.ts` — the out-of-band
  control surface (the `cancel` action of the PATCH handler).

Conventions: JavaScript numbers that carry money/averages are modelled as
`ℚ`; integer counters as `ℕ`; `Math.round` as `jsRound` (floor of x+1/2,
which is exactly JS round-half-up semantics).  Database rows live in
plain lists; a Prisma `findMany ... orderBy` is modelled as filtering
followed by an insertion sort on the ordering key.  Asynchronous
interleaving is linearized: `Promise.all` over a chunk is modelled as a
left-to-right fold (the claims checked here are about counts and final
states, which the linearization preserves), and out-of-band control
requests are modelled by a hook applied at the engine's inter-chunk
suspension point (the `setTimeout` delay between chunks), which is where
the event loop would run them.  Wall-clock readings (`Date.now`) are
abstracted: per-word latency is an explicit parameter, and the
wall-clock-derived `processingRate` statistic is not modelled.
-/

namespace Categorizer

/-! ## Basic JavaScript arithmetic helpers -/

/-- JavaScript `Math.round`: round half toward positive infinity,
`Math.round x = ⌊x + 0.5⌋`. -/
def jsRound (q : ℚ) : ℤ := ⌊q + 1/2⌋

/-! ## `db.ts`: retryability classification and `withRetry`

The source's `withRetry` loops `attempt = 1 .. maxRetries`, returning the
operation's value on success; on failure it rethrows immediately when
`attempt === maxRetries` or when the error is not retryable, and
otherwise sleeps `delayMs`, doubles `delayMs`, and retries.  The line
`throw new Error('Max retries exceeded')` sits after the loop.  The
connection bookkeeping (`ensureConnection`, forced disconnect on
connection-exhaustion) does not affect the returned value or the
requested delays and is elided.  The fallible operation is modelled as a
function from the attempt number (1-based) to that attempt's outcome;
the model returns the outcome together with the list of requested
backoff delays, in order. -/

/-- A storage-layer error: an optional Prisma error code plus a message. -/
structure DbError where
  code : Option String
  message : String
deriving DecidableEq, Repr

/-- Leading-segment test on character lists. -/
def listStartsWith [DecidableEq α] : List α → List α → Bool
  | [], _ => true
  | _ :: _, [] => false
  | x :: xs, y :: ys => y == x && listStartsWith xs ys

/-- Substring occurrence test on character lists. -/
def listOccursIn [DecidableEq α] : List α → List α → Bool
  | _, [] => false
  | pat, l@(_ :: tl) => listStartsWith pat l || listOccursIn pat tl

/-- JavaScript `message.includes(pat)`; the empty pattern is included in
every string, matching JS. -/
def strContains (s pat : String) : Bool :=
  pat.data.isEmpty || listOccursIn pat.data s.data

/-- The retryability allow-list of `withRetry` (`db.ts` lines 126–136):
the five Prisma connection/timeout codes, or one of the five message
substrings. -/
def isRetryableError (e : DbError) : Bool :=
  e.code == some "P1001" ||
  e.code == some "P1002" ||
  e.code == some "P1008" ||
  e.code == some "P1017" ||
  e.code == some "P2037" ||
  strContains e.message "too many connections" ||
  strContains e.message "connection" ||
  strContains e.message "timeout" ||
  strContains e.message "ECONNRESET" ||
  strContains e.message "ETIMEDOUT"

/-- Outcome of `withRetry`: either the underlying storage error that was
rethrown, or the (unreachable-in-source for `maxRetries ≥ 1`) terminal
`'Max retries exceeded'` error. -/
inductive RetryError where
  | db (e : DbError)
  | maxRetriesExceeded
deriving DecidableEq, Repr

/-- The `for (attempt = 1; attempt <= maxRetries)` loop of `withRetry`.
Returns the result together with the list of backoff delays requested
(in order); `delayMs` doubles after each sleep.  The first argument is
the number of loop iterations still allowed (`maxRetries + 1 - attempt`,
kept explicit so the recursion is structural); exhausting it is falling
out of the loop into `throw new Error('Max retries exceeded')`. -/
def withRetryLoop (op : Nat → Except DbError α) (maxRetries : Nat) :
    Nat → Nat → Nat → List Nat → Except RetryError α × List Nat
  | 0, _, _, delays => (.error .maxRetriesExceeded, delays)
  | fuel + 1, attempt, delayMs, delays =>
    match op attempt with
    | .ok v => (.ok v, delays)
    | .error e =>
      if attempt = maxRetries then (.error (.db e), delays)
      else if isRetryableError e then
        withRetryLoop op maxRetries fuel (attempt + 1) (delayMs * 2) (delays ++ [delayMs])
      else (.error (.db e), delays)

/-- `withRetry(operation, maxRetries, delayMs)` from `db.ts`. -/
def withRetry (op : Nat → Except DbError α) (maxRetries : Nat := 3)
    (delayMs : Nat := 1000) : Except RetryError α × List Nat :=
  withRetryLoop op maxRetries maxRetries 1 delayMs []

/-! ## `db.ts`: the `Word` table and `upsertWord` -/

/-- A row of the `Word` table. -/
structure WordRow where
  id : Nat
  word : String
  languageId : Option Nat
  englishTranslation : Option String
  category : Option String
deriving DecidableEq, Repr

/-- The `(word, languageId)` match predicate used by `upsertWord`'s
`findFirst`. -/
def wordMatches (text : String) (langId : Option Nat) (w : WordRow) : Bool :=
  w.word == text && w.languageId == langId

/-- A fresh autoincrement id: one more than the largest id in the table. -/
def nextWordId (ws : List WordRow) : Nat :=
  (ws.map (·.id)).foldr max 0 + 1

/-- `upsertWord(wordText, languageId, englishTranslation, category)` from
`db.ts`: `findFirst` on `(word, languageId)`; update the found row's
`englishTranslation`/`category` in place, else create a new row. -/
def upsertWord (ws : List WordRow) (text : String) (langId : Option Nat)
    (translation : String) (category : Option String) : List WordRow :=
  match ws.find? (wordMatches text langId) with
  | some w =>
      ws.map fun x =>
        if x.id = w.id then
          { x with englishTranslation := some translation, category := category }
        else x
  | none =>
      ws ++ [{ id := nextWordId ws, word := text, languageId := langId,
               englishTranslation := some translation, category := category }]

/-- Number of rows matching a `(word, languageId)` pair. -/
def countMatching (ws : List WordRow) (text : String) (langId : Option Nat) : Nat :=
  (ws.filter (wordMatches text langId)).length

/-! ## `session.ts`: metrics (ETA, cost, token estimation) -/

/-- `calculateETA(processedWords, totalWords)` (`session.ts` 95–103):
`0` when `processedWords === 0` or the latency window is empty, else
`Math.round(remainingWords * mean(window) / 1000)` (window samples are
milliseconds, result is seconds). -/
def calculateETA (processingTimes : List Nat) (processedWords totalWords : Nat) : ℤ :=
  if processedWords = 0 ∨ processingTimes.length = 0 then 0
  else
    let averageTime : ℚ :=
      ((processingTimes.map (Nat.cast : Nat → ℚ)).sum) / processingTimes.length
    let remainingWords : ℚ := (totalWords : ℚ) - (processedWords : ℚ)
    jsRound (remainingWords * averageTime / 1000)

/-- The per-model price table of `calculateCost` (`session.ts` 107–112),
prices per 1K tokens. -/
def pricingTable (model : String) : Option (ℚ × ℚ) :=
  if model = "gpt-4o-mini" then some (0.00015, 0.0006)
  else if model = "gpt-4o" then some (0.005, 0.015)
  else if model = "gpt-4" then some (0.03, 0.06)
  else if model = "gpt-3.5-turbo" then some (0.0015, 0.002)
  else none

/-- `pricing[model] || pricing['gpt-4o-mini']`: an unknown model falls
back to the `gpt-4o-mini` row. -/
def modelPricing (model : String) : ℚ × ℚ :=
  (pricingTable model).getD (0.00015, 0.0006)

/-- `calculateCost(tokensUsed, model)` (`session.ts` 105–120): a 70/30
input/output token split, each half priced per 1K tokens. -/
def calculateCost (tokensUsed : Nat) (model : String) : ℚ :=
  let p := modelPricing model
  let inputTokens : ℤ := jsRound ((tokensUsed : ℚ) * 0.7)
  let outputTokens : ℤ := jsRound ((tokensUsed : ℚ) * 0.3)
  (inputTokens : ℚ) / 1000 * p.1 + (outputTokens : ℚ) / 1000 * p.2

/-- `estimateTokens(originalWord, translation)` (`session.ts` 422–430):
`ceil(len/4)` per string plus a fixed 50-token prompt overhead. -/
def estimateTokens (originalWord translation : String) : Nat :=
  (originalWord.length + 3) / 4 + (translation.length + 3) / 4 + 50

/-- The latency moving window update (`session.ts` 351–357): push the
sample, then `shift()` the oldest one out when the length exceeds 100. -/
def pushSample (times : List Nat) (t : Nat) : List Nat :=
  let l := times ++ [t]
  if 100 < l.length then l.tail else l

/-! ## `session.ts`: data model -/

/-- `ProcessingSession.status`. -/
inductive Status where
  | pending | processing | paused | completed | failed
deriving DecidableEq, Repr

/-- The `ProcessingSession` row.  `resumeData` is the word-id list frozen
at creation; wall-clock timestamp fields are abstracted to markers (the
engine only ever tests them for presence). -/
structure Session where
  status : Status
  totalWords : Nat
  processedWords : Nat
  successfulWords : Nat
  failedWords : Nat
  currentChunk : Nat
  totalChunks : Nat
  chunkSize : Nat
  totalTokensUsed : Nat
  estimatedCost : ℚ
  resumeData : List Nat
  lastProcessedWordId : Option Nat
  startedAt : Option Unit
  completedAt : Option Unit
  error : Option String
  retryCount : Nat
deriving Repr

/-- A `Language` reference row. -/
structure LanguageRow where
  id : Nat
  name : String
  code : Option String
  priority : Nat
deriving DecidableEq, Repr

/-- A `Category` reference row. -/
structure CategoryRow where
  id : Nat
  name : String
deriving DecidableEq, Repr

/-- A `ProcessingResult` row (single-session store, so no `sessionId`
column).  The failure branch of `processWordWithTracking` creates the row
without language/translation/category/tokens/cost, which take the
schema defaults (`null` / 0). -/
structure ResultRow where
  wordId : Nat
  originalWord : String
  detectedLanguage : Option String
  englishTranslation : Option String
  assignedCategory : Option String
  processingTime : Nat
  tokensUsed : Nat
  cost : ℚ
  success : Bool
  error : Option String
deriving Repr

/-- The relational store visible to one engine run: the reference tables,
the `Word` table, and one `ProcessingSession` aggregate with its
`ProcessingResult` children. -/
structure Store where
  session : Option Session
  words : List WordRow
  categories : List CategoryRow
  languages : List LanguageRow
  results : List ResultRow
deriving Repr

/-- `ProcessingConfig.mode` (`'batch'` = sequential, `'parallel'` =
concurrent). -/
inductive Mode where
  | batch | parallel
deriving DecidableEq, Repr

/-- `ProcessingConfig` (prompts are opaque to the engine and elided). -/
structure Config where
  mode : Mode
  model : String
  chunkSize : Nat
  maxRetries : Nat
deriving Repr

/-- The classification oracle's successful payload
(`processWord`'s return value). -/
structure OracleResult where
  language : String
  englishTranslation : String
  category : String
deriving DecidableEq, Repr

/-- The classification oracle: fallible, deterministic per word text.
An `Except.error` models `processWord` throwing. -/
abbrev Oracle : Type := String → Except String OracleResult

/-! ## `session.ts`: sorting used by the Prisma queries

`findMany ... orderBy` is modelled as an insertion sort with the query's
comparison key (SQL `ORDER BY ... ASC`). -/

/-- Insert into a `le`-sorted list. -/
def insertSorted (le : α → α → Bool) (x : α) : List α → List α
  | [] => [x]
  | y :: ys => if le x y then x :: y :: ys else y :: insertSorted le x ys

/-- Insertion sort. -/
def sortByLe (le : α → α → Bool) : List α → List α
  | [] => []
  | x :: xs => insertSorted le x (sortByLe le xs)

/-- `orderBy: { id: 'asc' }` on the `Word` table. -/
def sortWordsById (ws : List WordRow) : List WordRow :=
  sortByLe (fun a b => a.id ≤ b.id) ws

/-- `orderBy: { name: 'asc' }` on `Category`. -/
def sortCategories (cs : List CategoryRow) : List CategoryRow :=
  sortByLe (fun a b => a.name ≤ b.name) cs

/-- `orderBy: [{ priority: 'asc' }, { name: 'asc' }]` on `Language`. -/
def sortLanguages (ls : List LanguageRow) : List LanguageRow :=
  sortByLe (fun a b => a.priority < b.priority ||
                       (a.priority == b.priority && a.name ≤ b.name)) ls

/-- The slicing loop of `chunkArray`: each iteration takes one
`chunkSize`-slice and advances.  The `fuel` argument bounds the number
of iterations (the source's loop runs at most `array.length` times for
`chunkSize ≥ 1`); it is kept explicit so the recursion is structural. -/
def chunkArrayGo (chunkSize : Nat) : Nat → List α → List (List α)
  | _, [] => []
  | 0, _ :: _ => []
  | fuel + 1, l@(_ :: _) =>
    l.take chunkSize :: chunkArrayGo chunkSize fuel (l.drop chunkSize)

/-- `chunkArray` (`session.ts` 432–438): fixed-size slices, last one may
be shorter.  (The source loop would not terminate for `chunkSize = 0`;
the engine only runs with clamped `chunkSize ≥ 1`, and the model returns
`[]` in that vacuous case.) -/
def chunkArray (l : List α) (chunkSize : Nat) : List (List α) :=
  if chunkSize = 0 then [] else chunkArrayGo chunkSize l.length l

/-! ## `session.ts`: the engine -/

/-- The recomputed statistics of `getProcessingStats` (`session.ts`
501–536) minus the wall-clock-derived `processingRate`. -/
structure Stats where
  totalWords : Nat
  processedWords : Nat
  successfulWords : Nat
  failedWords : Nat
  currentChunk : Nat
  totalChunks : Nat
  estimatedTimeRemaining : ℤ
  averageProcessingTime : ℚ
  totalCost : ℚ
deriving Repr

/-- `getProcessingStats` applied to the session row it just read back
(`findUnique` returns the row in the store). -/
def statsOfSession (s : Session) (times : List Nat) : Stats :=
  { totalWords := s.totalWords
    processedWords := s.processedWords
    successfulWords := s.successfulWords
    failedWords := s.failedWords
    currentChunk := s.currentChunk
    totalChunks := s.totalChunks
    estimatedTimeRemaining := calculateETA times s.processedWords s.totalWords
    averageProcessingTime :=
      if 0 < times.length then
        ((times.map (Nat.cast : Nat → ℚ)).sum) / times.length
      else 0
    totalCost := s.estimatedCost }

/-- `getProcessingStats` reading the live session row from the store.
The source throws when the row is absent; the engine only calls it while
the row exists, so the absent case returns an inert default. -/
def getProcessingStats (st : Store) (times : List Nat) : Stats :=
  match st.session with
  | some s => statsOfSession s times
  | none =>
      { totalWords := 0, processedWords := 0, successfulWords := 0,
        failedWords := 0, currentChunk := 0, totalChunks := 0,
        estimatedTimeRemaining := 0, averageProcessingTime := 0, totalCost := 0 }

/-- The typed event stream (the `progress` variant is never emitted by
the source and is omitted). -/
inductive Event where
  | result (r : ResultRow)
  | chunkComplete (chunkIndex totalChunks processedWords totalWords : Nat)
      (stats : Stats)
  | complete (stats : Stats)
deriving Repr

/-- `createSession(wordIds)` (`session.ts` 122–145): a `pending` session
with `totalChunks = ceil(totalWords / chunkSize)` and
`resumeData = { wordIds }` (order preserved as given). -/
def createSession (cfg : Config) (wordIds : List Nat) : Session :=
  { status := .pending
    totalWords := wordIds.length
    processedWords := 0
    successfulWords := 0
    failedWords := 0
    currentChunk := 0
    totalChunks := (wordIds.length + cfg.chunkSize - 1) / cfg.chunkSize
    chunkSize := cfg.chunkSize
    totalTokensUsed := 0
    estimatedCost := 0
    resumeData := wordIds
    lastProcessedWordId := none
    startedAt := none
    completedAt := none
    error := none
    retryCount := 0 }

/-- `resumeSession` (`session.ts` 147–174): `null` when the session is
absent or `completed`; otherwise sets `status := 'processing'` and
`startedAt`, returning the *pre-update* row (the `findUnique` result). -/
def resumeSession (st : Store) : Option (Session × Store) :=
  match st.session with
  | none => none
  | some s =>
      if s.status = .completed then none
      else some (s, { st with
        session := some { s with status := .processing, startedAt := some () } })

/-- `updateSessionProgress(currentChunk, processedWords)` (`session.ts`
440–451). -/
def updateSessionProgress (st : Store) (currentChunk processedWords : Nat) : Store :=
  { st with session := st.session.map fun s =>
      { s with currentChunk := currentChunk, processedWords := processedWords } }

/-- `updateSessionStats` (`session.ts` 453–472): increment the
success/failure counters and accumulate tokens and cost from the chunk's
result rows. -/
def updateSessionStats (st : Store) (successfulWords failedWords : Nat)
    (results : List ResultRow) : Store :=
  let totalTokens := (results.map (·.tokensUsed)).sum
  let totalCost := (results.map (·.cost)).sum
  { st with session := st.session.map fun s =>
      { s with
        successfulWords := s.successfulWords + successfulWords
        failedWords := s.failedWords + failedWords
        totalTokensUsed := s.totalTokensUsed + totalTokens
        estimatedCost := s.estimatedCost + totalCost } }

/-- `completeSession` (`session.ts` 474–484). -/
def completeSession (st : Store) : Store :=
  { st with session := st.session.map fun s =>
      { s with status := .completed, completedAt := some () } }

/-- `handleSessionError` (`session.ts` 486–499). -/
def handleSessionError (st : Store) (msg : String) : Store :=
  { st with session := st.session.map fun s =>
      { s with status := .failed, error := some msg,
               retryCount := s.retryCount + 1 } }

/-- Update one `Word` row in place (`prisma.word.update` inside
`processWordWithTracking`).  JS `detectedLanguage?.id || null` /
`detectedCategory?.name || null` is modelled by `Option.map` (reference
ids are positive and names non-empty, so JS falsiness never fires in
scope). -/
def updateWordRow (ws : List WordRow) (id : Nat) (langId : Option Nat)
    (translation : String) (category : Option String) : List WordRow :=
  ws.map fun w =>
    if w.id = id then
      { w with languageId := langId, englishTranslation := some translation,
               category := category }
    else w

/-- `processWordWithTracking` (`session.ts` 330–420): classify one word,
push the latency sample (success path only), match language/category
against the reference lists, update the `Word` row, and append exactly
one `ProcessingResult` (success or failure — a thrown classification is
caught and becomes a `success:false` row echoing the original word). -/
def processWordWithTracking (cfg : Config) (oracle : Oracle)
    (latency : String → Nat) (cats : List CategoryRow) (langs : List LanguageRow)
    (st : Store) (times : List Nat) (w : WordRow) :
    ResultRow × Store × List Nat :=
  let t := latency w.word
  match oracle w.word with
  | .ok pr =>
      let times' := pushSample times t
      let detectedLanguage : Option LanguageRow := langs.find? fun l =>
        l.name.toLower == pr.language.toLower
      let detectedCategory : Option CategoryRow := cats.find? fun c =>
        c.name.toLower == pr.category.toLower
      let estimatedTokens := estimateTokens w.word pr.englishTranslation
      let cost := calculateCost estimatedTokens cfg.model
      let langIdOpt : Option Nat := detectedLanguage.map fun l => l.id
      let catNameOpt : Option String := detectedCategory.map fun c => c.name
      let st := { st with
        words := updateWordRow st.words w.id langIdOpt
          pr.englishTranslation catNameOpt }
      let r : ResultRow :=
        { wordId := w.id, originalWord := w.word
          detectedLanguage := some pr.language
          englishTranslation := some pr.englishTranslation
          assignedCategory := some pr.category
          processingTime := t, tokensUsed := estimatedTokens, cost := cost
          success := true, error := none }
      (r, { st with results := st.results ++ [r] }, times')
  | .error msg =>
      let r : ResultRow :=
        { wordId := w.id, originalWord := w.word
          detectedLanguage := none, englishTranslation := none
          assignedCategory := none
          processingTime := t, tokensUsed := 0, cost := 0
          success := false, error := some msg }
      (r, { st with results := st.results ++ [r] }, times)

/-- `processChunk` (`session.ts` 284–328).  Sequential (`batch`) mode
emits a `result` event per word; `parallel` mode collects the
`Promise.all` outcomes without per-word events.  Both are linearized in
word order. -/
def processChunk (cfg : Config) (oracle : Oracle) (latency : String → Nat)
    (cats : List CategoryRow) (langs : List LanguageRow) :
    List WordRow → Store → List Nat →
    List ResultRow × Store × List Nat × List Event
  | [], st, times => ([], st, times, [])
  | w :: ws, st, times =>
    let (r, st', times') :=
      processWordWithTracking cfg oracle latency cats langs st times w
    let (rs, st'', times'', evs) :=
      processChunk cfg oracle latency cats langs ws st' times'
    match cfg.mode with
    | .parallel => (r :: rs, st'', times'', evs)
    | .batch => (r :: rs, st'', times'', .result r :: evs)

/-- One run's outcome: `err` is the exception `processWords` rethrows
(`none` on success), plus the final store, the emitted events in order,
and the latency window. -/
structure RunResult where
  err : Option String
  store : Store
  events : List Event
  times : List Nat
deriving Repr

/-- The chunk loop of `processWords` (`session.ts` 224–264) over the
enumerated chunks not yet processed.  `ctrl` models out-of-band control
requests (the PATCH route) that the event loop runs during the
inter-chunk `setTimeout` delay: after chunk `k`'s `chunk_complete` event,
the store becomes `ctrl k store`.  The loop itself never re-reads the
session status, exactly as in the source. -/
def runChunks (cfg : Config) (oracle : Oracle) (latency : String → Nat)
    (cats : List CategoryRow) (langs : List LanguageRow)
    (snapTotalWords chunksLen : Nat) (ctrl : Nat → Store → Store) :
    List (Nat × List WordRow) → Store → List Nat → Nat →
    Store × List Nat × Nat × List Event
  | [], st, times, pw => (st, times, pw, [])
  | (k, chunk) :: rest, st, times, pw =>
    -- persist progress before dispatching the chunk
    let st1 := updateSessionProgress st k pw
    let (results, st2, times2, chunkEvs) :=
      processChunk cfg oracle latency cats langs chunk st1 times
    let pw2 := pw + results.length
    let succ := (results.filter (·.success)).length
    let failed := (results.filter (fun r => !r.success)).length
    let st3 := updateSessionStats st2 succ failed results
    let stats := getProcessingStats st3 times2
    let ev := Event.chunkComplete (k + 1) chunksLen pw2 snapTotalWords stats
    -- inter-chunk suspension point: out-of-band control may run here
    let st4 := ctrl k st3
    let (st5, times5, pw5, evs) :=
      runChunks cfg oracle latency cats langs snapTotalWords chunksLen ctrl
        rest st4 times2 pw2
    (st5, times5, pw5, chunkEvs ++ ev :: evs)

/-- `processWords` (`session.ts` 176–282).  Loads and transitions the
session (`resumeSession`), throws when it is absent or completed, reads
the reference tables, resolves the working word set from the frozen
`resumeData` (dropping through `lastProcessedWordId` when set, with the
`indexOf === -1` fail-safe), fetches the matching `Word` rows **ordered
by id ascending**, chunks them, runs the chunk loop from
`session.currentChunk`, and finally marks the session completed and
emits `complete`.  Any thrown error marks the session failed
(`handleSessionError`) and is rethrown.  `ctrl` is the out-of-band
control hook threaded to the inter-chunk suspension points (identity for
an undisturbed run). -/
def processWords (cfg : Config) (oracle : Oracle) (latency : String → Nat)
    (ctrl : Nat → Store → Store) (st : Store) : RunResult :=
  match resumeSession st with
  | none =>
      { err := some "Session not found or already completed"
        store := st, events := [], times := [] }
  | some (session, st) =>
      let wordIds := session.resumeData
      let categories := sortCategories st.categories
      let languages := sortLanguages st.languages
      if categories.isEmpty then
        -- `throw new Error('No categories found in database')`, caught by
        -- the catch block: mark failed and rethrow
        { err := some "No categories found in database"
          store := handleSessionError st "No categories found in database"
          events := [], times := [] }
      else
        let effectiveIds :=
          match session.lastProcessedWordId with
          | some wid =>
              if wid ∈ wordIds then wordIds.drop (wordIds.indexOf wid + 1)
              else wordIds
          | none => wordIds
        let words := sortWordsById (st.words.filter (·.id ∈ effectiveIds))
        let chunks := chunkArray words cfg.chunkSize
        let (st1, times1, _, evs) :=
          runChunks cfg oracle latency categories languages
            session.totalWords chunks.length ctrl
            (chunks.enum.drop session.currentChunk) st [] session.processedWords
        let st2 := completeSession st1
        let completeEv := Event.complete (getProcessingStats st2 times1)
        { err := none, store := st2, events := evs ++ [completeEv], times := times1 }

/-- The identity control schedule: no out-of-band request arrives. -/
def noCtrl : Nat → Store → Store := fun _ st => st

/-! ## `api/processing-sessions/[id]/route.ts`: the `cancel` action -/

/-- The `cancel` branch of the PATCH handler (route lines 103–121):
legal from `processing`/`paused`/`pending`; sets `status := 'failed'`
with `error := 'Cancelled by user'` and a `completedAt` timestamp.  On an
absent session (404) or an illegal state (400) the store is unchanged. -/
def patchCancel (st : Store) : Store :=
  match st.session with
  | none => st
  | some s =>
      if s.status = .processing ∨ s.status = .paused ∨ s.status = .pending then
        { st with session := some { s with
            status := .failed, error := some "Cancelled by user",
            completedAt := some () } }
      else st

/-! ## Property helpers and concrete inputs used by the claim theorems -/

/-- Spec-derived comparison definition (from the spec's words, for the
refinement check of the ETA formula):
"`estimatedTimeRemaining = (totalWords - processedWords) *
averageProcessingTime`, expressed in seconds, and is `0` whenever no
samples exist yet". -/
def specEstimatedTimeRemaining (times : List Nat) (processed total : Nat) : ℤ :=
  if times.length = 0 then 0
  else
    jsRound (((total : ℚ) - (processed : ℚ)) *
      (((times.map (Nat.cast : Nat → ℚ)).sum) / times.length) / 1000)

/-- Whether a classification attempt succeeded. -/
def oracleOk (r : Except String OracleResult) : Bool :=
  match r with
  | .ok _ => true
  | .error _ => false

/-- The per-chunk/per-run statistics check of the amended counter
invariant: at a `chunk_complete` event the recomputed statistics'
`successfulWords + failedWords` equals the event's running
`processedWords` datum, which bounds the (lagging) persisted
`processedWords` and is itself bounded by `totalWords`; at `complete`
the persisted `processedWords` lags the final
`successfulWords + failedWords`, which is bounded by `totalWords`. -/
def chunkEventOk (e : Event) : Bool :=
  match e with
  | .chunkComplete _ _ pwData totW stats =>
      (stats.successfulWords + stats.failedWords == pwData) &&
      (stats.processedWords ≤ pwData) && (pwData ≤ totW)
  | .complete stats =>
      (stats.processedWords ≤ stats.successfulWords + stats.failedWords) &&
      (stats.successfulWords + stats.failedWords ≤ stats.totalWords)
  | .result _ => true

/-- The statistics payload of a `chunk_complete` event. -/
def chunkStatsOf (e : Event) : Option Stats :=
  match e with
  | .chunkComplete _ _ _ _ stats => some stats
  | _ => none

/-- The statistics payload of a `complete` event. -/
def completeStatsOf (e : Event) : Option Stats :=
  match e with
  | .complete stats => some stats
  | _ => none

/-- A bare `Word` row as uploaded (no language/translation/category
yet). -/
def mkWord (i : Nat) (s : String) : WordRow :=
  { id := i, word := s, languageId := none,
    englishTranslation := none, category := none }

/-- The single-category, single-language reference data of the worked
examples. -/
def exCategories : List CategoryRow := [{ id := 1, name := "X" }]

/-- Reference languages of the worked examples. -/
def exLanguages : List LanguageRow :=
  [{ id := 1, name := "English", code := some "en", priority := 1 }]

/-- An always-succeeding oracle: everything is English, translated to
itself, categorized as `X`. -/
def okOracle : Oracle :=
  fun w => .ok { language := "English", englishTranslation := w, category := "X" }

/-- C1's example: the spec's worked scenario — five words, `chunkSize=3`,
sequential mode, an oracle succeeding on everything. -/
def c1cfg : Config :=
  { mode := .batch, model := "gpt-4o-mini", chunkSize := 3, maxRetries := 3 }

/-- C1's example store: a fresh session over word ids `[1..5]`. -/
def c1store : Store :=
  { session := some (createSession c1cfg [1, 2, 3, 4, 5])
    words := [mkWord 1 "a", mkWord 2 "b", mkWord 3 "c", mkWord 4 "d", mkWord 5 "e"]
    categories := exCategories
    languages := exLanguages
    results := [] }

/-- C1's example run (1000 ms latency per word, no external control). -/
def c1run : RunResult := processWords c1cfg okOracle (fun _ => 1000) noCtrl c1store

/-- C2's example: the frozen `resumeData` ordering is `[2, 1]` —
deliberately not ascending. -/
def c2cfg : Config :=
  { mode := .batch, model := "gpt-4o-mini", chunkSize := 2, maxRetries := 3 }

/-- C2's example store: word 1 is `"b"`, word 2 is `"a"`; the session was
created from `wordIds = [2, 1]`. -/
def c2store : Store :=
  { session := some (createSession c2cfg [2, 1])
    words := [mkWord 1 "b", mkWord 2 "a"]
    categories := exCategories
    languages := exLanguages
    results := [] }

/-- C2's example run. -/
def c2run : RunResult := processWords c2cfg okOracle (fun _ => 10) noCtrl c2store

/-- C3's example store: the same job as C1's but the stored session is
already in status `processing` — i.e. a second `processWords` invocation
against a session that is being processed. -/
def c3store : Store :=
  { c1store with
    session := some { createSession c1cfg [1, 2, 3, 4, 5] with status := .processing } }

/-- C3's example run: the second, concurrent start attempt. -/
def c3run : RunResult := processWords c1cfg okOracle (fun _ => 10) noCtrl c3store

/-- C4's example: a 4-chunk job (`chunkSize=1`, four words). -/
def c4cfg : Config :=
  { mode := .batch, model := "gpt-4o-mini", chunkSize := 1, maxRetries := 3 }

/-- C4's example store. -/
def c4store : Store :=
  { session := some (createSession c4cfg [1, 2, 3, 4])
    words := [mkWord 1 "a", mkWord 2 "b", mkWord 3 "c", mkWord 4 "d"]
    categories := exCategories
    languages := exLanguages
    results := [] }

/-- C4's control schedule: the PATCH `cancel` request lands during the
inter-chunk delay right after the first `chunk_complete` event. -/
def cancelAfterFirstChunk : Nat → Store → Store :=
  fun k st => if k = 0 then patchCancel st else st

/-- C4's example run: cancel issued after the first of four chunks. -/
def c4run : RunResult :=
  processWords c4cfg okOracle (fun _ => 10) cancelAfterFirstChunk c4store

/-- C5's example: ten words, concurrent mode, one 10-word chunk. -/
def c5cfg : Config :=
  { mode := .parallel, model := "gpt-4o-mini", chunkSize := 10, maxRetries := 3 }

/-- C5's example words: ids 1..10 with texts "w1".."w10". -/
def c5words : List WordRow :=
  (List.range 10).map fun i => mkWord (i + 1) ("w" ++ toString (i + 1))

/-- C5's example store. -/
def c5store : Store :=
  { session := some (createSession c5cfg ((List.range 10).map (· + 1)))
    words := c5words
    categories := exCategories
    languages := exLanguages
    results := [] }

/-- C5's example oracle: classification throws for exactly the word
`"w7"` and succeeds elsewhere. -/
def c5oracle : Oracle :=
  fun w => if w == "w7" then .error "API error"
           else .ok { language := "English", englishTranslation := w, category := "X" }

/-- C5's example run. -/
def c5run : RunResult := processWords c5cfg c5oracle (fun _ => 10) noCtrl c5store

/-- C6/C7's sample non-retryable error (a uniqueness-constraint
violation: code `P2002`, message free of the retryable substrings). -/
def constraintError : DbError :=
  { code := some "P2002", message := "Unique constraint failed" }

/-- C6/C7's sample retryable error (Prisma code `P1001`). -/
def connError : DbError := { code := some "P1001", message := "db unreachable" }

/-- C6's sample operation: fails twice retryably, succeeds on the third
attempt. -/
def c6op : Nat → Except DbError Nat :=
  fun attempt => if attempt ≤ 2 then .error connError else .ok 42

/-- C7's sample operation: every attempt fails with the same retryable
error. -/
def c7op : Nat → Except DbError Nat := fun _ => .error connError

/-! ## General lemmas -/

theorem jsRound_nonneg {q : ℚ} (h : 0 ≤ q) : 0 ≤ jsRound q := by
  unfold jsRound
  have h2 : (0:ℚ) ≤ q + 1/2 := by linarith
  exact Int.le_floor.mpr (by exact_mod_cast h2)

theorem withRetryLoop_step (op : Nat → Except DbError α)
    (mr fuel attempt delayMs : Nat) (delays : List Nat) :
    withRetryLoop op mr (fuel + 1) attempt delayMs delays =
      match op attempt with
      | .ok v => (.ok v, delays)
      | .error e =>
        if attempt = mr then (.error (.db e), delays)
        else if isRetryableError e then
          withRetryLoop op mr fuel (attempt + 1) (delayMs * 2) (delays ++ [delayMs])
        else (.error (.db e), delays) := rfl

/-! ## Claim C6: backoff behaviour of `withRetry` -/

/-- C6: an operation that fails twice with a retryable error and
succeeds on the third attempt, run under `withRetry` with
`maxRetries = 3` and initial delay `d`, returns the successful result,
having requested a delay of `d` before the second attempt and `2*d`
before the third — so the total requested delay is `d + 2*d`. -/
theorem withRetry_backoff (α : Type) (op : Nat → Except DbError α)
    (e1 e2 : DbError) (v : α) (d : Nat)
    (h1 : op 1 = .error e1) (h2 : op 2 = .error e2) (h3 : op 3 = .ok v)
    (hr1 : isRetryableError e1 = true) (hr2 : isRetryableError e2 = true) :
    withRetry op 3 d = (.ok v, [d, d * 2]) ∧
      d + 2 * d ≤ [d, d * 2].sum := by
  constructor
  · have g1 : withRetry op 3 d = withRetryLoop op 3 (2 + 1) 1 d [] := rfl
    rw [g1, withRetryLoop_step, h1]
    norm_num [hr1]
    have g2 : withRetryLoop op 3 2 (1 + 1) (d * 2) [d] =
        withRetryLoop op 3 (1 + 1) (1 + 1) (d * 2) [d] := rfl
    rw [g2, withRetryLoop_step, h2]
    norm_num [hr2]
    have g3 : withRetryLoop op 3 1 (1 + 1 + 1) (d * 2 * 2) [d, d * 2] =
        withRetryLoop op 3 (0 + 1) (1 + 1 + 1) (d * 2 * 2) [d, d * 2] := rfl
    rw [g3, withRetryLoop_step, h3]
  · simp [List.sum_cons]
    omega

/-- C6 witness: the concrete operation `c6op` (two retryable failures,
then success) with initial delay 100. -/
theorem withRetry_backoff_witness :
    withRetry c6op 3 100 = (.ok 42, [100, 100 * 2]) ∧
      100 + 2 * 100 ≤ [100, 100 * 2].sum :=
  withRetry_backoff Nat c6op connError connError 42 100
    rfl rfl rfl (by decide) (by decide)

/-! ## Claim C7: error propagation of `withRetry` -/

/-- Helper for C7: when every attempt up to `maxRetries` fails with a
retryable error, the loop rethrows the final attempt's own error. -/
theorem withRetryLoop_all_retryable (op : Nat → Except DbError α) (mr : Nat) :
    ∀ (fuel attempt d : Nat) (delays : List Nat),
      fuel + attempt = mr + 1 → 1 ≤ attempt → attempt ≤ mr →
      (∀ k, attempt ≤ k → k ≤ mr → ∃ e, op k = .error e ∧ isRetryableError e = true) →
      ∃ e, op mr = .error e ∧
        (withRetryLoop op mr fuel attempt d delays).1 = .error (.db e) := by
  intro fuel
  induction fuel with
  | zero => intro attempt d delays hinv h1 hle _hall; omega
  | succ fuel ih =>
    intro attempt d delays hinv h1 hle hall
    obtain ⟨e, he, hr⟩ := hall attempt le_rfl hle
    rw [withRetryLoop_step, he]
    by_cases heq : attempt = mr
    · subst heq
      exact ⟨e, he, by simp⟩
    · have hlt : attempt + 1 ≤ mr := by omega
      simp only [heq, if_false, hr, if_true]
      exact ih (attempt + 1) (d * 2) (delays ++ [d]) (by omega) (by omega) hlt
        (fun k hk1 hk2 => hall k (by omega) hk2)

/-- C7 counterexample: with `maxRetries = 3` and an operation failing
with the retryable error `connError` on every attempt, `withRetry`
exhausts its attempts (two backoff delays were requested) and rethrows
the underlying `connError` itself — not a terminal `MaxRetriesExceeded`
error, contrary to the claim. -/
theorem withRetry_exhaustion_counterexample :
    withRetry c7op 3 100 = (.error (.db connError), [100, 200]) ∧
      RetryError.db connError ≠ RetryError.maxRetriesExceeded :=
  ⟨rfl, by decide⟩

/-- C7 (amended): a non-retryable failure propagates immediately on its
first occurrence, with no backoff delay requested; and when a retryable
failure persists through all allowed attempts, `withRetry` rethrows the
final attempt's underlying storage error (the `'Max retries exceeded'`
branch is unreachable whenever `maxRetries ≥ 1`). -/
theorem withRetry_error_propagation :
    (∀ (α : Type) (op : Nat → Except DbError α) (mr d : Nat) (e : DbError),
      1 ≤ mr → op 1 = .error e → isRetryableError e = false →
      withRetry op mr d = (.error (.db e), [])) ∧
    (∀ (α : Type) (op : Nat → Except DbError α) (mr d : Nat),
      1 ≤ mr →
      (∀ k, 1 ≤ k → k ≤ mr → ∃ e, op k = .error e ∧ isRetryableError e = true) →
      ∃ e, op mr = .error e ∧ (withRetry op mr d).1 = .error (.db e)) := by
  constructor
  · intro α op mr d e hmr h1 hnr
    obtain ⟨m, rfl⟩ : ∃ m, mr = m + 1 := ⟨mr - 1, by omega⟩
    unfold withRetry
    rw [withRetryLoop_step, h1]
    dsimp only
    by_cases h : 1 = m + 1
    · rw [if_pos h]
    · rw [if_neg h]
      simp only [hnr, Bool.false_eq_true, if_false]
  · intro α op mr d hmr hall
    exact withRetryLoop_all_retryable op mr mr 1 d [] (by omega) le_rfl hmr
      (fun k hk1 hk2 => hall k hk1 hk2)

/-- C7 witness: the non-retryable `constraintError` propagates at once
with no delays, and the persistently-failing `c7op` surfaces `connError`
itself after exhaustion. -/
theorem withRetry_error_propagation_witness :
    withRetry (fun _ => (.error constraintError : Except DbError Nat)) 3 100 =
      (.error (.db constraintError), []) ∧
    (withRetry c7op 3 100).1 = .error (.db connError) := by
  constructor
  · exact withRetry_error_propagation.1 Nat _ 3 100 constraintError
      (by omega) rfl (by decide)
  · obtain ⟨e, he, hres⟩ := withRetry_error_propagation.2 Nat c7op 3 100
      (by omega) (fun k _ _ => ⟨connError, rfl, by decide⟩)
    simp only [c7op, Except.error.injEq] at he
    rw [hres, he]

/-! ## Claim C10: totality, non-negativity and fallback of `calculateCost` -/

/-- Helper: the price table only holds non-negative prices, and the
fallback row is non-negative. -/
theorem modelPricing_nonneg (model : String) :
    0 ≤ (modelPricing model).1 ∧ 0 ≤ (modelPricing model).2 := by
  unfold modelPricing pricingTable
  split_ifs <;> norm_num

/-- C10: `calculateCost` is total over all model strings and token
counts, always returns a non-negative cost, and prices any model absent
from the table exactly as `gpt-4o-mini` (the fallback row). -/
theorem calculateCost_nonneg_fallback (model : String) (tokensUsed : Nat) :
    0 ≤ calculateCost tokensUsed model ∧
      ((pricingTable model).isNone = true →
        calculateCost tokensUsed model = calculateCost tokensUsed "gpt-4o-mini") := by
  constructor
  · unfold calculateCost
    have hin : (0:ℤ) ≤ jsRound ((tokensUsed : ℚ) * 0.7) :=
      jsRound_nonneg (by positivity)
    have hout : (0:ℤ) ≤ jsRound ((tokensUsed : ℚ) * 0.3) :=
      jsRound_nonneg (by positivity)
    have h1 := (modelPricing_nonneg model).1
    have h2 := (modelPricing_nonneg model).2
    have hin' : (0:ℚ) ≤ (jsRound ((tokensUsed : ℚ) * 0.7) : ℚ) := by exact_mod_cast hin
    have hout' : (0:ℚ) ≤ (jsRound ((tokensUsed : ℚ) * 0.3) : ℚ) := by exact_mod_cast hout
    dsimp only
    exact add_nonneg (mul_nonneg (div_nonneg hin' (by norm_num)) h1)
      (mul_nonneg (div_nonneg hout' (by norm_num)) h2)
  · intro hnone
    have hfall : modelPricing model = modelPricing "gpt-4o-mini" := by
      unfold modelPricing
      rw [Option.isNone_iff_eq_none.mp hnone]
      norm_num [pricingTable]
    unfold calculateCost
    rw [hfall]

/-- C10 witness: the unknown model string `"claude"` is priced with the
fallback row and yields a non-negative cost. -/
theorem calculateCost_nonneg_fallback_witness :
    0 ≤ calculateCost 123 "claude" ∧
      calculateCost 123 "claude" = calculateCost 123 "gpt-4o-mini" :=
  ⟨(calculateCost_nonneg_fallback "claude" 123).1,
   (calculateCost_nonneg_fallback "claude" 123).2 (by decide)⟩

/-! ## Claim C9: the ETA formula -/

/-- C9 counterexample: with one 1000 ms sample in the window but
`processedWords = 0` (exactly the state at the first `chunk_complete`
event, whose recomputed statistics still carry the lagging persisted
count of 0), the code returns `0` while the claimed formula
`(totalWords - processedWords) * averageProcessingTime` gives `5`
seconds. -/
theorem calculateETA_counterexample :
    calculateETA [1000] 0 5 = 0 ∧
      specEstimatedTimeRemaining [1000] 0 5 = 5 ∧ (0 : ℤ) ≠ 5 := by
  refine ⟨rfl, ?_, by decide⟩
  norm_num [specEstimatedTimeRemaining, jsRound]

/-- C9 (amended): `estimatedTimeRemaining` equals
`round((totalWords - processedWords) * mean(window) / 1000)` — the
seconds form of the claimed product — **except** that it is `0` not only
on an empty window (cold start) but also whenever `processedWords = 0`;
it is never negative, and the latency window is bounded at 100
samples. -/
theorem calculateETA_amended (times : List Nat) (p t : Nat) (hpt : p ≤ t) :
    0 ≤ calculateETA times p t ∧
      (p = 0 ∨ times = [] → calculateETA times p t = 0) ∧
      (p ≠ 0 → times ≠ [] → calculateETA times p t =
        specEstimatedTimeRemaining times p t) ∧
      (∀ x, times.length ≤ 100 → (pushSample times x).length ≤ 100) := by
  refine ⟨?_, ?_, ?_, ?_⟩
  · unfold calculateETA
    split_ifs with h
    · exact le_rfl
    · apply jsRound_nonneg
      have hsub : (0:ℚ) ≤ (t:ℚ) - (p:ℚ) := by
        have hc : (p:ℚ) ≤ (t:ℚ) := by exact_mod_cast hpt
        linarith
      have hsum : (0:ℚ) ≤ (times.map (Nat.cast : Nat → ℚ)).sum := by
        apply List.sum_nonneg
        intro x hx
        obtain ⟨y, _, rfl⟩ := List.mem_map.mp hx
        exact Nat.cast_nonneg y
      have havg : (0:ℚ) ≤ (times.map (Nat.cast : Nat → ℚ)).sum / times.length :=
        div_nonneg hsum (Nat.cast_nonneg _)
      have := mul_nonneg hsub havg
      positivity
  · intro h
    unfold calculateETA
    have hcond : p = 0 ∨ times.length = 0 := by
      rcases h with h | h
      · exact Or.inl h
      · exact Or.inr (by simp [h])
    rw [if_pos hcond]
  · intro hp ht
    unfold calculateETA specEstimatedTimeRemaining
    have hlen : ¬ times.length = 0 := by simpa [List.length_eq_zero] using ht
    simp [hp, hlen]
  · intro x hlen
    show (if 100 < (times ++ [x]).length then (times ++ [x]).tail
          else times ++ [x]).length ≤ 100
    split_ifs with h
    · simp only [List.length_tail, List.length_append, List.length_singleton]
      omega
    · simp only [List.length_append, List.length_singleton] at *
      omega

/-- C9 witness: one 200 ms sample, 1 of 3 words processed. -/
theorem calculateETA_amended_witness :
    0 ≤ calculateETA [200] 1 3 ∧
      calculateETA [200] 1 3 = specEstimatedTimeRemaining [200] 1 3 ∧
      (pushSample [200] 5).length ≤ 100 :=
  ⟨(calculateETA_amended [200] 1 3 (by decide)).1,
   (calculateETA_amended [200] 1 3 (by decide)).2.2.1 (by decide) (by decide),
   (calculateETA_amended [200] 1 3 (by decide)).2.2.2 5 (by decide)⟩

/-! ## Claim C8: idempotent upsert on `(word, languageId)` -/

/-- Every element of a list of naturals is bounded by its `foldr max`. -/
theorem le_foldr_max (l : List Nat) : ∀ i ∈ l, i ≤ l.foldr max 0 := by
  induction l with
  | nil => simp
  | cons x xs ih =>
    intro i hi
    rcases List.mem_cons.mp hi with h | h
    · subst h
      exact le_max_left _ _
    · exact le_trans (ih i h) (le_max_right _ _)

/-- The autoincremented id is fresh. -/
theorem nextWordId_not_mem (ws : List WordRow) :
    nextWordId ws ∉ ws.map (·.id) := by
  intro h
  have := le_foldr_max (ws.map (·.id)) _ h
  unfold nextWordId at *
  omega

/-- The in-place update of `upsertWord` never changes ids. -/
theorem upsertWord_update_ids (ws : List WordRow) (wid : Nat)
    (tr : String) (cat : Option String) :
    ((ws.map fun x => if x.id = wid then
        { x with englishTranslation := some tr, category := cat }
      else x).map (·.id)) = ws.map (·.id) := by
  induction ws with
  | nil => rfl
  | cons x xs ih =>
    simp only [List.map_cons, ih]
    congr 1
    by_cases h : x.id = wid <;> simp [h]

/-- The in-place update of `upsertWord` never changes the
`(word, languageId)` key of a row. -/
theorem wordMatches_update (text : String) (lid : Option Nat)
    (tr : String) (cat : Option String) (x : WordRow) (wid : Nat) :
    wordMatches text lid (if x.id = wid then
      { x with englishTranslation := some tr, category := cat } else x) =
      wordMatches text lid x := by
  by_cases h : x.id = wid <;> simp [h, wordMatches]

/-- Unfolding of `upsertWord` when `findFirst` located a row. -/
theorem upsertWord_found (ws : List WordRow) (text : String) (lid : Option Nat)
    (tr : String) (cat : Option String) (w : WordRow)
    (hfind : ws.find? (wordMatches text lid) = some w) :
    upsertWord ws text lid tr cat = ws.map fun x =>
      if x.id = w.id then
        { x with englishTranslation := some tr, category := cat }
      else x := by
  unfold upsertWord
  rw [hfind]

/-- Unfolding of `upsertWord` when no row matched. -/
theorem upsertWord_notFound (ws : List WordRow) (text : String) (lid : Option Nat)
    (tr : String) (cat : Option String)
    (hfind : ws.find? (wordMatches text lid) = none) :
    upsertWord ws text lid tr cat = ws ++
      [{ id := nextWordId ws, word := text, languageId := lid,
         englishTranslation := some tr, category := cat }] := by
  unfold upsertWord
  rw [hfind]

/-- Soundness of one `upsertWord` call under the uniqueness invariant:
exactly one matching row remains, it carries the new values, and table
ids stay pairwise distinct. -/
theorem upsertWord_spec (text : String) (lid : Option Nat)
    (tr : String) (cat : Option String) :
    ∀ ws : List WordRow,
      (ws.map (·.id)).Nodup →
      countMatching ws text lid ≤ 1 →
      countMatching (upsertWord ws text lid tr cat) text lid = 1 ∧
      (∀ w ∈ upsertWord ws text lid tr cat, wordMatches text lid w = true →
        w.englishTranslation = some tr ∧ w.category = cat) ∧
      ((upsertWord ws text lid tr cat).map (·.id)).Nodup := by
  intro ws
  induction ws with
  | nil =>
    intro _ _
    rw [upsertWord_notFound [] text lid tr cat List.find?_nil]
    refine ⟨by simp [countMatching, wordMatches], ?_, by simp⟩
    intro w hw _
    simp only [List.nil_append, List.mem_singleton] at hw
    subst hw
    exact ⟨rfl, rfl⟩
  | cons x xs ih =>
    intro hnd hcount
    rw [List.map_cons, List.nodup_cons] at hnd
    obtain ⟨hndx, hndxs⟩ := hnd
    by_cases hx : wordMatches text lid x = true
    · -- head row is the match: `findFirst` returns it, the map updates it
      have hfind : (x :: xs).find? (wordMatches text lid) = some x :=
        List.find?_cons_of_pos _ hx
      have hxs0 : countMatching xs text lid = 0 := by
        have hsplit : countMatching (x :: xs) text lid =
            1 + countMatching xs text lid := by
          simp [countMatching, List.filter_cons, hx, Nat.add_comm]
        omega
      have hnomatch : ∀ y ∈ xs, ¬ wordMatches text lid y = true := by
        have hf : xs.filter (wordMatches text lid) = [] :=
          List.length_eq_zero.mp hxs0
        intro y hy hpy
        have hmem : y ∈ xs.filter (wordMatches text lid) :=
          List.mem_filter.mpr ⟨hy, hpy⟩
        simp [hf] at hmem
      have hxseq : (xs.map fun y => if y.id = x.id then
          { y with englishTranslation := some tr, category := cat } else y) = xs := by
        have hcongr : (xs.map fun y => if y.id = x.id then
            { y with englishTranslation := some tr, category := cat } else y) =
            xs.map id := by
          apply List.map_congr_left
          intro y hy
          have hne : y.id ≠ x.id := fun hcontra =>
            hndx (hcontra ▸ List.mem_map_of_mem (·.id) hy)
          simp [hne]
        simpa using hcongr
      have hrw : upsertWord (x :: xs) text lid tr cat =
          { x with englishTranslation := some tr, category := cat } :: xs := by
        rw [upsertWord_found (x :: xs) text lid tr cat x hfind, List.map_cons,
          if_pos rfl, hxseq]
      rw [hrw]
      refine ⟨?_, ?_, ?_⟩
      · have hpx' : wordMatches text lid
            { x with englishTranslation := some tr, category := cat } = true := by
          simpa [wordMatches] using hx
        simp only [countMatching, List.filter_cons, hpx', if_pos]
        simpa [countMatching] using hxs0
      · intro w hw hpw
        rcases List.mem_cons.mp hw with h | h
        · subst h
          exact ⟨rfl, rfl⟩
        · exact absurd hpw (hnomatch w h)
      · simp only [List.map_cons, List.nodup_cons]
        exact ⟨hndx, hndxs⟩
    · -- head row does not match: recurse structurally on the tail
      have hfind : (x :: xs).find? (wordMatches text lid) =
          xs.find? (wordMatches text lid) := List.find?_cons_of_neg _ (by simp [hx])
      have hcount' : countMatching xs text lid ≤ 1 := by
        have hsame : countMatching (x :: xs) text lid = countMatching xs text lid := by
          simp [countMatching, List.filter_cons, hx]
        omega
      rcases hxs : xs.find? (wordMatches text lid) with _ | w
      · -- no match anywhere: a fresh row is appended
        have hrw := upsertWord_notFound (x :: xs) text lid tr cat
          (hfind.trans hxs)
        have hnewMatch : wordMatches text lid
            { id := nextWordId (x :: xs), word := text, languageId := lid,
              englishTranslation := some tr, category := cat } = true := by
          simp [wordMatches]
        have hnomatch : ∀ y ∈ x :: xs, ¬ wordMatches text lid y = true := by
          intro y hy
          rcases List.mem_cons.mp hy with h | h
          · subst h
            simp [hx]
          · exact fun hpy =>
              (by simp [List.find?_eq_none.mp hxs y h hpy] : False)
        rw [hrw]
        refine ⟨?_, ?_, ?_⟩
        · have hfilterxs : xs.filter (wordMatches text lid) = [] :=
            List.filter_eq_nil_iff.mpr fun y hy =>
              hnomatch y (List.mem_cons_of_mem _ hy)
          simp [countMatching, List.filter_cons, hx, List.filter_append,
            hfilterxs, hnewMatch]
        · intro w hw hpw
          rcases List.mem_append.mp hw with h | h
          · exact absurd hpw (hnomatch w h)
          · simp only [List.mem_singleton] at h
            subst h
            exact ⟨rfl, rfl⟩
        · simp only [List.map_append, List.map_cons, List.map_nil]
          rw [List.nodup_append]
          refine ⟨by simp only [List.nodup_cons]; exact ⟨hndx, hndxs⟩,
            List.nodup_singleton _, ?_⟩
          intro a ha hb
          simp only [List.mem_singleton] at hb
          subst hb
          exact nextWordId_not_mem (x :: xs) (by simpa using ha)
      · -- the match sits in the tail
        have hwid : w.id ∈ xs.map (·.id) :=
          List.mem_map_of_mem (·.id) (List.mem_of_find?_eq_some hxs)
        have hxw : x.id ≠ w.id := fun hcontra => hndx (hcontra ▸ hwid)
        have hrw : upsertWord (x :: xs) text lid tr cat =
            x :: upsertWord xs text lid tr cat := by
          rw [upsertWord_found (x :: xs) text lid tr cat w (hfind.trans hxs),
            upsertWord_found xs text lid tr cat w hxs, List.map_cons, if_neg hxw]
        obtain ⟨ihc, ihv, ihn⟩ := ih hndxs hcount'
        rw [hrw]
        refine ⟨?_, ?_, ?_⟩
        · simpa [countMatching, List.filter_cons, hx] using ihc
        · intro y hy hpy
          rcases List.mem_cons.mp hy with h | h
          · subst h
            exact absurd hpy (by simp [hx])
          · exact ihv y h hpy
        · simp only [List.map_cons]
          rw [List.nodup_cons]
          refine ⟨?_, ihn⟩
          have hids : (upsertWord xs text lid tr cat).map (·.id) = xs.map (·.id) := by
            rw [upsertWord_found xs text lid tr cat w hxs]
            exact upsertWord_update_ids xs w.id tr cat
          rw [hids]
          exact hndx

/-- C8: calling `upsertWord` twice with the same `(word, languageId)`
pair and (possibly different) translation/category values never creates
two rows for that pair — assuming the table satisfies its own
uniqueness invariant (distinct ids, at most one row per pair), exactly
one row for the pair exists after the second call and it carries the
second call's values (last-writer-wins). -/
theorem upsertWord_idempotent (ws : List WordRow) (text : String)
    (lid : Option Nat) (t1 t2 : String) (c1 c2 : Option String)
    (hnd : (ws.map (·.id)).Nodup)
    (hcount : countMatching ws text lid ≤ 1) :
    countMatching (upsertWord (upsertWord ws text lid t1 c1) text lid t2 c2)
        text lid = 1 ∧
      (∀ w ∈ upsertWord (upsertWord ws text lid t1 c1) text lid t2 c2,
        wordMatches text lid w = true →
        w.englishTranslation = some t2 ∧ w.category = c2) := by
  obtain ⟨h1c, _, h1n⟩ := upsertWord_spec text lid t1 c1 ws hnd hcount
  obtain ⟨h2c, h2v, _⟩ :=
    upsertWord_spec text lid t2 c2 (upsertWord ws text lid t1 c1) h1n (by omega)
  exact ⟨h2c, h2v⟩

/-- C8 witness: upserting `("casa", language 1)` twice into an empty
table, first as house/nouns then as home/places, leaves exactly one
matching row. -/
theorem upsertWord_idempotent_witness :
    countMatching (upsertWord (upsertWord [] "casa" (some 1) "house" (some "nouns"))
        "casa" (some 1) "home" (some "places")) "casa" (some 1) = 1 :=
  (upsertWord_idempotent [] "casa" (some 1) "house" "home" (some "nouns")
    (some "places") (by simp) (by simp [countMatching])).1

/-! ## Engine lemmas shared by the session-processing claims -/

theorem length_filter_add_length_filter_not (l : List α) (p : α → Bool) :
    (l.filter p).length + (l.filter fun a => !p a).length = l.length := by
  induction l with
  | nil => rfl
  | cons x xs ih =>
    by_cases h : p x = true <;>
      simp [List.filter_cons, h, Nat.add_assoc, Nat.add_comm, Nat.add_left_comm, ih] <;>
      omega

theorem insertSorted_perm (le : α → α → Bool) (x : α) (l : List α) :
    List.Perm (insertSorted le x l) (x :: l) := by
  induction l with
  | nil => rfl
  | cons y ys ih =>
    unfold insertSorted
    split_ifs
    · rfl
    · exact ((ih.cons y).trans (List.Perm.swap x y ys))

theorem sortByLe_perm (le : α → α → Bool) (l : List α) :
    List.Perm (sortByLe le l) l := by
  induction l with
  | nil => rfl
  | cons x xs ih =>
    unfold sortByLe
    exact (insertSorted_perm le x (sortByLe le xs)).trans (ih.cons x)

theorem sortByLe_length (le : α → α → Bool) (l : List α) :
    (sortByLe le l).length = l.length := (sortByLe_perm le l).length_eq

theorem chunkArrayGo_flatten (k : Nat) (hk : k ≠ 0) :
    ∀ (fuel : Nat) (l : List α), l.length ≤ fuel →
      (chunkArrayGo k fuel l).flatten = l := by
  intro fuel
  induction fuel with
  | zero =>
    intro l hl
    have hnil : l = [] := List.length_eq_zero.mp (Nat.le_zero.mp hl)
    subst hnil
    rfl
  | succ fuel ih =>
    intro l hl
    match l with
    | [] => rfl
    | x :: xs =>
      show (List.take k (x :: xs) :: chunkArrayGo k fuel (List.drop k (x :: xs))).flatten
        = x :: xs
      rw [List.flatten_cons, ih (List.drop k (x :: xs)) ?_]
      · exact List.take_append_drop k (x :: xs)
      · have hk1 : 1 ≤ k := Nat.one_le_iff_ne_zero.mpr hk
        simp only [List.length_drop, List.length_cons] at *
        omega

theorem chunkArray_flatten (l : List α) (k : Nat) (hk : k ≠ 0) :
    (chunkArray l k).flatten = l := by
  unfold chunkArray
  rw [if_neg hk]
  exact chunkArrayGo_flatten k hk l.length l le_rfl

/-- Per-word processing: the session row is untouched. -/
theorem processWordWithTracking_session (cfg : Config) (oracle : Oracle)
    (latency : String → Nat) (cats : List CategoryRow) (langs : List LanguageRow)
    (st : Store) (times : List Nat) (w : WordRow) :
    (processWordWithTracking cfg oracle latency cats langs st times w).2.1.session
      = st.session := by
  unfold processWordWithTracking
  rcases oracle w.word with msg | pr <;> rfl

/-- Per-word processing: exactly one result row is appended, echoing the
word's id and text, with `success` mirroring the oracle outcome. -/
theorem processWordWithTracking_results (cfg : Config) (oracle : Oracle)
    (latency : String → Nat) (cats : List CategoryRow) (langs : List LanguageRow)
    (st : Store) (times : List Nat) (w : WordRow) :
    (processWordWithTracking cfg oracle latency cats langs st times w).2.1.results
      = st.results ++ [(processWordWithTracking cfg oracle latency cats langs st times w).1] ∧
    (processWordWithTracking cfg oracle latency cats langs st times w).1.wordId = w.id ∧
    (processWordWithTracking cfg oracle latency cats langs st times w).1.originalWord = w.word ∧
    (processWordWithTracking cfg oracle latency cats langs st times w).1.success
      = oracleOk (oracle w.word) := by
  unfold processWordWithTracking oracleOk
  rcases oracle w.word with msg | pr <;> exact ⟨rfl, rfl, rfl, rfl⟩

/-- Chunk processing (either execution strategy): the session row is
untouched, each word appends exactly one result row in order, and each
row echoes its word's id/text with `success` mirroring the oracle. -/
theorem processChunk_spec (cfg : Config) (oracle : Oracle)
    (latency : String → Nat) (cats : List CategoryRow) (langs : List LanguageRow) :
    ∀ (ws : List WordRow) (st : Store) (times : List Nat),
      (processChunk cfg oracle latency cats langs ws st times).2.1.session = st.session ∧
      (processChunk cfg oracle latency cats langs ws st times).2.1.results =
        st.results ++ (processChunk cfg oracle latency cats langs ws st times).1 ∧
      (processChunk cfg oracle latency cats langs ws st times).1.map
          (fun r => (r.wordId, r.originalWord, r.success)) =
        ws.map (fun w => (w.id, w.word, oracleOk (oracle w.word))) := by
  intro ws
  induction ws with
  | nil =>
    intro st times
    exact ⟨rfl, by simp [processChunk], rfl⟩
  | cons w ws ih =>
    intro st times
    obtain ⟨hres, hid, hword, hsucc⟩ :=
      processWordWithTracking_results cfg oracle latency cats langs st times w
    have hsess := processWordWithTracking_session cfg oracle latency cats langs st times w
    rcases hpw : processWordWithTracking cfg oracle latency cats langs st times w with
      ⟨r, st', times'⟩
    rw [hpw] at hres hid hword hsucc hsess
    dsimp only at hres hid hword hsucc hsess
    obtain ⟨ihsess, ihres, ihmap⟩ := ih st' times'
    rcases hpc : processChunk cfg oracle latency cats langs ws st' times' with
      ⟨rs, st'', times'', evs⟩
    rw [hpc] at ihsess ihres ihmap
    dsimp only at ihsess ihres ihmap
    have hmain : (processChunk cfg oracle latency cats langs (w :: ws) st times).1 = r :: rs ∧
        (processChunk cfg oracle latency cats langs (w :: ws) st times).2.1 = st'' := by
      cases hmode : cfg.mode <;>
        simp [processChunk, hpw, hpc, hmode]
    rw [hmain.1, hmain.2]
    refine ⟨ihsess.trans hsess, ?_, ?_⟩
    · rw [ihres, hres, List.append_assoc]
      rfl
    · simp only [List.map_cons, ihmap, hid, hword, hsucc]

theorem updateSessionProgress_results (st : Store) (cc pw : Nat) :
    (updateSessionProgress st cc pw).results = st.results := rfl

theorem updateSessionStats_results (st : Store) (a b : Nat) (rs : List ResultRow) :
    (updateSessionStats st a b rs).results = st.results := rfl

theorem updateSessionProgress_session (st : Store) (s : Session) (cc pw : Nat)
    (hs : st.session = some s) :
    (updateSessionProgress st cc pw).session =
      some { s with currentChunk := cc, processedWords := pw } := by
  simp [updateSessionProgress, hs]

theorem updateSessionStats_session (st : Store) (s : Session) (a b : Nat)
    (rs : List ResultRow) (hs : st.session = some s) :
    (updateSessionStats st a b rs).session = some { s with
      successfulWords := s.successfulWords + a
      failedWords := s.failedWords + b
      totalTokensUsed := s.totalTokensUsed + (rs.map (·.tokensUsed)).sum
      estimatedCost := s.estimatedCost + (rs.map (·.cost)).sum } := by
  simp [updateSessionStats, hs]

/-- The chunk loop appends exactly the rows of the dispatched chunks, in
order, to the result ledger (undisturbed runs). -/
theorem runChunks_results_map (cfg : Config) (oracle : Oracle)
    (latency : String → Nat) (cats : List CategoryRow) (langs : List LanguageRow)
    (tw cl : Nat) :
    ∀ (l : List (Nat × List WordRow)) (st : Store) (times : List Nat) (pw : Nat),
      (runChunks cfg oracle latency cats langs tw cl noCtrl l st times pw).1.results.map
          (fun r => (r.wordId, r.originalWord, r.success)) =
        st.results.map (fun r => (r.wordId, r.originalWord, r.success)) ++
          ((l.map (·.2)).flatten).map
            (fun w => (w.id, w.word, oracleOk (oracle w.word))) := by
  intro l
  induction l with
  | nil =>
    intro st times pw
    simp [runChunks]
  | cons a l ih =>
    obtain ⟨k, chunk⟩ := a
    intro st times pw
    obtain ⟨hsess, hres, hmap⟩ := processChunk_spec cfg oracle latency cats langs
      chunk (updateSessionProgress st k pw) times
    rcases hpc : processChunk cfg oracle latency cats langs chunk
        (updateSessionProgress st k pw) times with ⟨results, st2, times2, chunkEvs⟩
    rw [hpc] at hsess hres hmap
    dsimp only at hsess hres hmap
    have hstep : (runChunks cfg oracle latency cats langs tw cl noCtrl
        ((k, chunk) :: l) st times pw).1 =
        (runChunks cfg oracle latency cats langs tw cl noCtrl l
          (noCtrl k (updateSessionStats st2 ((results.filter (·.success)).length)
            ((results.filter fun r => !r.success).length) results))
          times2 (pw + results.length)).1 := by
      simp only [runChunks, hpc]
    rw [hstep]
    rw [ih]
    simp only [noCtrl, updateSessionStats_results, hres,
      updateSessionProgress_results]
    rw [List.map_append, hmap]
    simp [List.append_assoc]

/-- The events emitted inside a chunk are per-word `result` events
only. -/
theorem processChunk_events (cfg : Config) (oracle : Oracle)
    (latency : String → Nat) (cats : List CategoryRow) (langs : List LanguageRow) :
    ∀ (ws : List WordRow) (st : Store) (times : List Nat),
      ∀ e ∈ (processChunk cfg oracle latency cats langs ws st times).2.2.2,
        ∃ r, e = Event.result r := by
  intro ws
  induction ws with
  | nil =>
    intro st times e he
    simp [processChunk] at he
  | cons w ws ih =>
    intro st times e he
    rcases hpw : processWordWithTracking cfg oracle latency cats langs st times w with
      ⟨r, st', times'⟩
    rcases hpc : processChunk cfg oracle latency cats langs ws st' times' with
      ⟨rs, st'', times'', evs⟩
    have hevs := ih st' times'
    rw [hpc] at hevs
    dsimp only at hevs
    cases hmode : cfg.mode <;>
      simp only [processChunk, hpw, hpc, hmode] at he
    · rcases List.mem_cons.mp he with h | h
      · exact ⟨r, h⟩
      · exact hevs e h
    · exact hevs e he

/-- The chunk-loop invariant behind the amended counter claim: starting
from a live session whose success/failure counters already sum to the
running count `pw` (which bounds the persisted `processedWords`), every
event emitted by the loop passes `chunkEventOk`, and the final live
session keeps the invariant with the final running count, which never
exceeds `totalWords`. -/
theorem runChunks_invariant (cfg : Config) (oracle : Oracle)
    (latency : String → Nat) (cats : List CategoryRow) (langs : List LanguageRow)
    (snapTW cl : Nat) :
    ∀ (l : List (Nat × List WordRow)) (st : Store) (times : List Nat) (pw : Nat)
      (s : Session),
      st.session = some s →
      s.totalWords = snapTW →
      s.successfulWords + s.failedWords = pw →
      s.processedWords ≤ pw →
      pw + ((l.map (·.2)).flatten).length ≤ snapTW →
      (∀ e ∈ (runChunks cfg oracle latency cats langs snapTW cl noCtrl
          l st times pw).2.2.2, chunkEventOk e = true) ∧
      (∃ s', (runChunks cfg oracle latency cats langs snapTW cl noCtrl
          l st times pw).1.session = some s' ∧
        s'.totalWords = snapTW ∧
        s'.successfulWords + s'.failedWords =
          (runChunks cfg oracle latency cats langs snapTW cl noCtrl l st times pw).2.2.1 ∧
        s'.processedWords ≤
          (runChunks cfg oracle latency cats langs snapTW cl noCtrl l st times pw).2.2.1 ∧
        (runChunks cfg oracle latency cats langs snapTW cl noCtrl l st times pw).2.2.1
          ≤ snapTW) := by
  intro l
  induction l with
  | nil =>
    intro st times pw s hs htw hsf hpp hsum
    refine ⟨by simp [runChunks], ⟨s, hs, htw, hsf, hpp, ?_⟩⟩
    simpa using hsum
  | cons a l ih =>
    obtain ⟨k, chunk⟩ := a
    intro st times pw s hs htw hsf hpp hsum
    -- the store after `updateSessionProgress`
    have hs1 : (updateSessionProgress st k pw).session =
        some { s with currentChunk := k, processedWords := pw } :=
      updateSessionProgress_session st s k pw hs
    -- the chunk dispatch
    obtain ⟨hsess, hres, hmap⟩ := processChunk_spec cfg oracle latency cats langs
      chunk (updateSessionProgress st k pw) times
    have hevres := processChunk_events cfg oracle latency cats langs
      chunk (updateSessionProgress st k pw) times
    rcases hpc : processChunk cfg oracle latency cats langs chunk
        (updateSessionProgress st k pw) times with ⟨results, st2, times2, chunkEvs⟩
    rw [hpc] at hsess hres hmap hevres
    dsimp only at hsess hres hmap hevres
    have hlen : results.length = chunk.length := by
      have := congrArg List.length hmap
      simpa using this
    have hsplit : (results.filter (·.success)).length +
        (results.filter fun r => !r.success).length = results.length :=
      length_filter_add_length_filter_not results (·.success)
    -- the session after `updateSessionStats`
    have hs2 : st2.session = some { s with currentChunk := k, processedWords := pw } :=
      hsess.trans hs1
    have hs3 := updateSessionStats_session st2
      { s with currentChunk := k, processedWords := pw }
      ((results.filter (·.success)).length)
      ((results.filter fun r => !r.success).length) results hs2
    set s3 : Session := { s with
      currentChunk := k, processedWords := pw
      successfulWords := s.successfulWords + (results.filter (·.success)).length
      failedWords := s.failedWords + (results.filter fun r => !r.success).length
      totalTokensUsed := s.totalTokensUsed + (results.map (·.tokensUsed)).sum
      estimatedCost := s.estimatedCost + (results.map (·.cost)).sum } with hs3def
    have hs3' : (updateSessionStats st2 ((results.filter (·.success)).length)
        ((results.filter fun r => !r.success).length) results).session = some s3 := hs3
    have e1 : s3.successfulWords =
        s.successfulWords + (results.filter (·.success)).length := by rw [hs3def]
    have e2 : s3.failedWords =
        s.failedWords + (results.filter fun r => !r.success).length := by rw [hs3def]
    have e3 : s3.processedWords = pw := by rw [hs3def]
    have e4 : s3.totalWords = s.totalWords := by rw [hs3def]
    -- one unfolding of the loop
    have hstep : runChunks cfg oracle latency cats langs snapTW cl noCtrl
        ((k, chunk) :: l) st times pw =
        (let out := runChunks cfg oracle latency cats langs snapTW cl noCtrl l
          (updateSessionStats st2 ((results.filter (·.success)).length)
            ((results.filter fun r => !r.success).length) results)
          times2 (pw + results.length)
        (out.1, out.2.1, out.2.2.1,
          chunkEvs ++ Event.chunkComplete (k + 1) cl (pw + results.length) snapTW
            (getProcessingStats (updateSessionStats st2
              ((results.filter (·.success)).length)
              ((results.filter fun r => !r.success).length) results) times2)
            :: out.2.2.2)) := by
      simp only [runChunks, hpc, noCtrl]
    have hchunklen : pw + results.length ≤ snapTW := by
      simp only [List.map_cons, List.flatten_cons, List.length_append] at hsum
      omega
    -- invariant carried into the tail
    obtain ⟨ihev, s', ihs, ihtw, ihsf, ihpp, ihle⟩ := ih
      (updateSessionStats st2 ((results.filter (·.success)).length)
        ((results.filter fun r => !r.success).length) results)
      times2 (pw + results.length) s3 hs3'
      (e4.trans htw)
      (by rw [e1, e2]; omega)
      (by rw [e3]; omega)
      (by simp only [List.map_cons, List.flatten_cons, List.length_append] at hsum; omega)
    rw [hstep]
    dsimp only
    constructor
    · intro e he
      rcases List.mem_append.mp he with h | h
      · obtain ⟨r, rfl⟩ := hevres e h
        rfl
      · rcases List.mem_cons.mp h with h | h
        · subst h
          have hstats : getProcessingStats (updateSessionStats st2
              ((results.filter (·.success)).length)
              ((results.filter fun r => !r.success).length) results) times2 =
              statsOfSession s3 times2 := by
            simp [getProcessingStats, hs3']
          have p1 : (statsOfSession s3 times2).successfulWords = s3.successfulWords := rfl
          have p2 : (statsOfSession s3 times2).failedWords = s3.failedWords := rfl
          have p3 : (statsOfSession s3 times2).processedWords = s3.processedWords := rfl
          simp only [chunkEventOk, hstats, p1, p2, p3, Bool.and_eq_true, beq_iff_eq,
            decide_eq_true_eq]
          refine ⟨⟨?_, ?_⟩, ?_⟩ <;> omega
        · exact ihev e h
    · exact ⟨s', ihs, ihtw, ihsf, ihpp, ihle⟩

theorem completeSession_results (st : Store) :
    (completeSession st).results = st.results := rfl

theorem completeSession_session (st : Store) (s : Session) (hs : st.session = some s) :
    (completeSession st).session =
      some { s with status := .completed, completedAt := some () } := by
  simp [completeSession, hs]

/-- A list no longer than the chunk size forms a single chunk. -/
theorem chunkArray_single (l : List α) (k : Nat) (hne : l ≠ [])
    (hk : l.length ≤ k) (hk0 : k ≠ 0) : chunkArray l k = [l] := by
  unfold chunkArray
  rw [if_neg hk0]
  match l, hne with
  | x :: xs, _ =>
    show List.take k (x :: xs) :: chunkArrayGo k xs.length (List.drop k (x :: xs)) = _
    rw [List.take_of_length_le hk, List.drop_eq_nil_of_le hk]
    cases xs <;> rfl

/-- A fresh session's run decomposes into the chunk loop over the
id-sorted matching rows followed by session completion and the
`complete` event. -/
theorem processWords_fresh (cfg : Config) (oracle : Oracle)
    (latency : String → Nat) (ctrl : Nat → Store → Store) (st : Store)
    (wordIds : List Nat) (stOut : Store) (timesOut : List Nat) (pwOut : Nat)
    (evs : List Event)
    (hs : st.session = some (createSession cfg wordIds))
    (hcats : ¬ st.categories = [])
    (hrun : runChunks cfg oracle latency (sortCategories st.categories)
      (sortLanguages st.languages) wordIds.length
      (chunkArray (sortWordsById (st.words.filter (·.id ∈ wordIds)))
        cfg.chunkSize).length ctrl
      (chunkArray (sortWordsById (st.words.filter (·.id ∈ wordIds)))
        cfg.chunkSize).enum
      { st with session := some { createSession cfg wordIds with
          status := .processing, startedAt := some () } }
      [] 0 = (stOut, timesOut, pwOut, evs)) :
    processWords cfg oracle latency ctrl st =
      { err := none
        store := completeSession stOut
        events := evs ++
          [Event.complete (getProcessingStats (completeSession stOut) timesOut)]
        times := timesOut } := by
  have hres : resumeSession st = some (createSession cfg wordIds,
      { st with session := some { createSession cfg wordIds with
          status := .processing, startedAt := some () } }) := by
    unfold resumeSession
    rw [hs]
    rfl
  have hcempty : (sortCategories st.categories).isEmpty = false := by
    have hlen : (sortCategories st.categories).length = st.categories.length :=
      sortByLe_length _ _
    rcases h : sortCategories st.categories with _ | ⟨c, cs⟩
    · rw [h] at hlen
      exact absurd (List.length_eq_zero.mp hlen.symm) hcats
    · rfl
  unfold processWords
  rw [hres]
  dsimp only
  rw [hcempty]
  simp only [Bool.false_eq_true, if_false]
  dsimp only [createSession, List.drop_zero]
  dsimp only [createSession] at hrun
  rw [hrun]

theorem enumFrom_map_snd (n : Nat) (l : List α) :
    (l.enumFrom n).map (·.2) = l := by
  induction l generalizing n with
  | nil => rfl
  | cons x xs ih => simp [List.enumFrom, ih]

theorem enum_map_snd (l : List α) : l.enum.map (·.2) = l :=
  enumFrom_map_snd 0 l

/-! ## Claim C2: processing order versus the frozen `resumeData` order -/

/-- C2 counterexample: a session frozen with `resumeData = [2, 1]`
processes word 1 before word 2 — the engine re-sorts the fetched rows by
ascending id (`orderBy: { id: 'asc' }`) instead of following the frozen
ordering. -/
theorem processWords_order_counterexample :
    (c2store.session.map fun s => s.resumeData) = some [2, 1] ∧
      c2run.store.results.map (·.wordId) = [1, 2] ∧
      ([1, 2] : List Nat) ≠ [2, 1] := ⟨by decide, by decide, by decide⟩

/-- C2 (amended): the frozen `resumeData` list determines *membership*
(which word rows are processed) but not order: the processed sequence —
ids, texts and per-word outcomes, chunk by chunk — is exactly the
db-query order, i.e. the matching rows of the word table sorted by
ascending id, regardless of the frozen list's ordering. -/
theorem processWords_order (cfg : Config) (oracle : Oracle)
    (latency : String → Nat) (st : Store) (wordIds : List Nat)
    (hs : st.session = some (createSession cfg wordIds))
    (hcats : ¬ st.categories = [])
    (hres0 : st.results = [])
    (hk : cfg.chunkSize ≠ 0) :
    (processWords cfg oracle latency noCtrl st).store.results.map
        (fun r => (r.wordId, r.originalWord, r.success)) =
      (sortWordsById (st.words.filter (·.id ∈ wordIds))).map
        (fun w => (w.id, w.word, oracleOk (oracle w.word))) := by
  rcases hrun : runChunks cfg oracle latency (sortCategories st.categories)
      (sortLanguages st.languages) wordIds.length
      (chunkArray (sortWordsById (st.words.filter (·.id ∈ wordIds)))
        cfg.chunkSize).length noCtrl
      (chunkArray (sortWordsById (st.words.filter (·.id ∈ wordIds)))
        cfg.chunkSize).enum
      { st with session := some { createSession cfg wordIds with
          status := .processing, startedAt := some () } } [] 0
    with ⟨stOut, timesOut, pwOut, evs⟩
  rw [processWords_fresh cfg oracle latency noCtrl st wordIds stOut timesOut
    pwOut evs hs hcats hrun]
  dsimp only
  rw [completeSession_results]
  have h := runChunks_results_map cfg oracle latency (sortCategories st.categories)
    (sortLanguages st.languages) wordIds.length
    (chunkArray (sortWordsById (st.words.filter (·.id ∈ wordIds)))
      cfg.chunkSize).length
    (chunkArray (sortWordsById (st.words.filter (·.id ∈ wordIds)))
      cfg.chunkSize).enum
    { st with session := some { createSession cfg wordIds with
        status := .processing, startedAt := some () } } [] 0
  rw [hrun] at h
  dsimp only at h
  rw [h]
  have hstu : ({ st with session := some { createSession cfg wordIds with
      status := .processing, startedAt := some () } } : Store).results
      = st.results := rfl
  rw [hstu, hres0]
  rw [enum_map_snd, chunkArray_flatten _ _ hk]
  simp

/-- C2 witness: the amended order theorem instantiated at the `[2, 1]`
example — processing goes `[1, 2]`, the ascending-id order. -/
theorem processWords_order_witness :
    c2run.store.results.map (fun r => (r.wordId, r.originalWord, r.success)) =
      (sortWordsById (c2store.words.filter (·.id ∈ [2, 1]))).map
        (fun w => (w.id, w.word, oracleOk (okOracle w.word))) :=
  processWords_order c2cfg okOracle (fun _ => 10) c2store [2, 1]
    rfl (by decide) rfl (by decide)

/-! ## Claim C1: the counter invariant at emitted events -/

/-- With pairwise-distinct word ids, at most `|ids|` table rows match an
id list. -/
theorem filter_mem_length_le (ws : List WordRow) (ids : List Nat)
    (hnd : (ws.map (·.id)).Nodup) :
    (ws.filter (·.id ∈ ids)).length ≤ ids.length := by
  have hsub : ((ws.filter (·.id ∈ ids)).map (·.id)).Sublist (ws.map (·.id)) :=
    (List.filter_sublist ws).map (·.id)
  have hnd' : ((ws.filter (·.id ∈ ids)).map (·.id)).Nodup := hsub.nodup hnd
  have hmem : ∀ x ∈ (ws.filter (·.id ∈ ids)).map (·.id), x ∈ ids := by
    intro x hx
    obtain ⟨w, hw, rfl⟩ := List.mem_map.mp hx
    have := List.of_mem_filter hw
    simpa using this
  have hlen : ((ws.filter (·.id ∈ ids)).map (·.id)).length ≤ ids.length := by
    calc ((ws.filter (·.id ∈ ids)).map (·.id)).length
        = ((ws.filter (·.id ∈ ids)).map (·.id)).toFinset.card :=
          (List.toFinset_card_of_nodup hnd').symm
      _ ≤ ids.toFinset.card := by
          apply Finset.card_le_card
          intro x hx
          exact List.mem_toFinset.mpr (hmem x (List.mem_toFinset.mp hx))
      _ ≤ ids.length := ids.toFinset_card_le
  simpa using hlen

/-- C1 counterexample: in the spec's own worked scenario (five words,
`chunkSize = 3`, everything succeeding, 1000 ms latency), the recomputed
statistics carried by the two `chunk_complete` events read
`(successfulWords+failedWords, processedWords) = (3, 0)` and `(5, 3)`,
and the `complete` event reads `(5, 3)` — `successfulWords +
failedWords = processedWords` fails at every one of them, because the
loop persists `processedWords` *before* dispatching a chunk and never
adds the chunk's count afterwards. -/
theorem processWords_counter_counterexample :
    ((c1run.events.filterMap chunkStatsOf).map fun s =>
        (s.successfulWords + s.failedWords, s.processedWords)) = [(3, 0), (5, 3)] ∧
      ((c1run.events.filterMap completeStatsOf).map fun s =>
        (s.successfulWords + s.failedWords, s.processedWords)) = [(5, 3)] ∧
      (3 : Nat) ≠ 0 := ⟨by decide, by decide, by decide⟩

/-- C1 (amended): at every emitted `chunk_complete` event the recomputed
statistics satisfy `successfulWords + failedWords =` the event's running
`processedWords` datum, with the *persisted* `processedWords` lagging
below it (by exactly the just-completed chunk), and the running count
never exceeds `totalWords`; at the `complete` event
`processedWords ≤ successfulWords + failedWords ≤ totalWords`.  (For a
fresh session over a table with pairwise-distinct word ids.) -/
theorem processWords_counter_invariant (cfg : Config) (oracle : Oracle)
    (latency : String → Nat) (st : Store) (wordIds : List Nat)
    (hs : st.session = some (createSession cfg wordIds))
    (hcats : ¬ st.categories = [])
    (hnd : (st.words.map (·.id)).Nodup) :
    ∀ e ∈ (processWords cfg oracle latency noCtrl st).events,
      chunkEventOk e = true := by
  rcases hrun : runChunks cfg oracle latency (sortCategories st.categories)
      (sortLanguages st.languages) wordIds.length
      (chunkArray (sortWordsById (st.words.filter (·.id ∈ wordIds)))
        cfg.chunkSize).length noCtrl
      (chunkArray (sortWordsById (st.words.filter (·.id ∈ wordIds)))
        cfg.chunkSize).enum
      { st with session := some { createSession cfg wordIds with
          status := .processing, startedAt := some () } } [] 0
    with ⟨stOut, timesOut, pwOut, evs⟩
  rw [processWords_fresh cfg oracle latency noCtrl st wordIds stOut timesOut
    pwOut evs hs hcats hrun]
  dsimp only
  have hflat : ((((chunkArray (sortWordsById (st.words.filter (·.id ∈ wordIds)))
      cfg.chunkSize).enum).map (·.2)).flatten).length ≤ wordIds.length := by
    rw [enum_map_snd]
    by_cases hk : cfg.chunkSize = 0
    · simp [chunkArray, hk]
    · rw [chunkArray_flatten _ _ hk]
      rw [show (sortWordsById (st.words.filter (·.id ∈ wordIds))).length =
          (st.words.filter (·.id ∈ wordIds)).length from sortByLe_length _ _]
      exact filter_mem_length_le st.words wordIds hnd
  have hinv := runChunks_invariant cfg oracle latency (sortCategories st.categories)
    (sortLanguages st.languages) wordIds.length
    (chunkArray (sortWordsById (st.words.filter (·.id ∈ wordIds)))
      cfg.chunkSize).length
    (chunkArray (sortWordsById (st.words.filter (·.id ∈ wordIds)))
      cfg.chunkSize).enum
    { st with session := some { createSession cfg wordIds with
        status := .processing, startedAt := some () } } [] 0
    { createSession cfg wordIds with status := .processing, startedAt := some () }
    rfl rfl rfl le_rfl (by simpa using hflat)
  rw [hrun] at hinv
  dsimp only at hinv
  obtain ⟨hev, s', hso, htw', hsf', hpp', hle'⟩ := hinv
  intro e he
  rcases List.mem_append.mp he with h | h
  · exact hev e h
  · simp only [List.mem_singleton] at h
    subst h
    have hcs := completeSession_session stOut s' hso
    have hstats : getProcessingStats (completeSession stOut) timesOut =
        statsOfSession { s' with status := .completed, completedAt := some () }
          timesOut := by
      simp [getProcessingStats, hcs]
    simp only [chunkEventOk, hstats, statsOfSession, Bool.and_eq_true,
      decide_eq_true_eq]
    omega

/-- C1 witness: the amended invariant holds across every event of the
worked 5-word run. -/
theorem processWords_counter_invariant_witness :
    c1run.events.all chunkEventOk = true :=
  List.all_eq_true.mpr
    (processWords_counter_invariant c1cfg okOracle (fun _ => 1000) c1store
      [1, 2, 3, 4, 5] rfl (by decide) (by decide))

/-! ## Claim C3: a second `processWords` against a `processing` session -/

/-- C3 counterexample: invoking `processWords` against a session whose
stored status is already `processing` does not fail — the run completes
(`err = none`) and dispatches all five words' classification work,
instead of being treated as an error. -/
theorem processWords_second_start_counterexample :
    (c3store.session.map fun s => s.status) = some .processing ∧
      c3run.err = none ∧ c3run.store.results.length = 5 :=
  ⟨by decide, by decide, by decide⟩

/-- C3 (amended): `processWords` rejects an invocation — failing with
`'Session not found or already completed'` before any work is
dispatched and with the store untouched — only when the session is
absent or already `completed`.  A session whose status is `processing`
is *accepted*: the engine provides no mutual exclusion and re-processes
it (the run proceeds normally). -/
theorem processWords_mutual_exclusion :
    (∀ (cfg : Config) (oracle : Oracle) (latency : String → Nat) (st : Store),
      st.session = none →
      processWords cfg oracle latency noCtrl st =
        { err := some "Session not found or already completed"
          store := st, events := [], times := [] }) ∧
    (∀ (cfg : Config) (oracle : Oracle) (latency : String → Nat) (st : Store)
        (s : Session), st.session = some s → s.status = .completed →
      processWords cfg oracle latency noCtrl st =
        { err := some "Session not found or already completed"
          store := st, events := [], times := [] }) ∧
    (∀ (cfg : Config) (oracle : Oracle) (latency : String → Nat) (st : Store)
        (s : Session), st.session = some s → s.status = .processing →
      ¬ st.categories = [] →
      (processWords cfg oracle latency noCtrl st).err = none) := by
  refine ⟨?_, ?_, ?_⟩
  · intro cfg oracle latency st h
    have hres : resumeSession st = none := by
      unfold resumeSession
      rw [h]
    unfold processWords
    rw [hres]
  · intro cfg oracle latency st s h hst
    have hres : resumeSession st = none := by
      unfold resumeSession
      rw [h]
      dsimp only
      rw [if_pos hst]
    unfold processWords
    rw [hres]
  · intro cfg oracle latency st s h hst hcats
    have hres : resumeSession st = some (s, { st with
        session := some { s with status := .processing, startedAt := some () } }) := by
      unfold resumeSession
      rw [h]
      dsimp only
      rw [hst]
      rfl
    have hcempty : (sortCategories st.categories).isEmpty = false := by
      have hlen : (sortCategories st.categories).length = st.categories.length :=
        sortByLe_length _ _
      rcases hc : sortCategories st.categories with _ | ⟨c, cs⟩
      · rw [hc] at hlen
        exact absurd (List.length_eq_zero.mp hlen.symm) hcats
      · rfl
    unfold processWords
    rw [hres]
    dsimp only
    rw [hcempty]
    simp only [Bool.false_eq_true, if_false]

/-- C3 witness: an absent session is rejected with the engine's error,
while the already-`processing` session of the counterexample store is
accepted. -/
theorem processWords_mutual_exclusion_witness :
    processWords c1cfg okOracle (fun _ => 10) noCtrl
        { c1store with session := none } =
      { err := some "Session not found or already completed"
        store := { c1store with session := none }, events := [], times := [] } ∧
    (processWords c1cfg okOracle (fun _ => 10) noCtrl c3store).err = none := by
  constructor
  · exact processWords_mutual_exclusion.1 c1cfg okOracle (fun _ => 10)
      { c1store with session := none } rfl
  · exact processWords_mutual_exclusion.2.2 c1cfg okOracle (fun _ => 10) c3store
      _ rfl rfl (by decide)

/-! ## Claim C4: cancellation between chunks -/

/-- C4 (code bug): in a 4-chunk job with the PATCH `cancel` landing
during the inter-chunk delay right after the first `chunk_complete` —
which does set `status = 'failed'` with `error = 'Cancelled by user'`,
as the last conjunct shows — the engine never re-reads the session
status between chunks: it dispatches chunks 2–4 anyway (all four
`ProcessingResult` rows exist; chunk 1's row is intact) and finally
overwrites the status to `completed`, leaving a session marked
`completed` yet carrying the user-cancellation error text. -/
theorem processWords_cancellation_ignored :
    c4run.err = none ∧
      c4run.store.results.map (·.wordId) = [1, 2, 3, 4] ∧
      (c4run.store.session.map fun s => (s.status, s.error)) =
        some (.completed, some "Cancelled by user") ∧
      ((patchCancel { c4store with session := some { createSession c4cfg [1, 2, 3, 4] with
          status := .processing } }).session.map fun s => (s.status, s.error)) =
        some (.failed, some "Cancelled by user") :=
  ⟨by decide, by decide, by decide, by decide⟩

/-! ## Claim C5: per-item isolation in concurrent mode -/

/-- C5: with a 10-word table in concurrent (`parallel`) mode with
`chunkSize = 10` (one chunk) and a classification function that throws
for exactly one of the ten words, the run still completes: all 10
`ProcessingResult` rows exist — 9 with `success = true` and 1 with
`success = false` — every row echoes its word's id and text with
`success` mirroring that word's oracle outcome, the failure is counted
into `failedWords`, and the session finishes `completed`, not
`failed`. -/
theorem processWords_per_item_isolation (cfg : Config) (oracle : Oracle)
    (latency : String → Nat) (st : Store) (ws : List WordRow)
    (_hmode : cfg.mode = .parallel)
    (hcs : cfg.chunkSize = 10)
    (hws : st.words = ws)
    (hlen : ws.length = 10)
    (hs : st.session = some (createSession cfg (ws.map (·.id))))
    (hcats : ¬ st.categories = [])
    (hres0 : st.results = [])
    (hfail : (ws.filter fun w => !(oracleOk (oracle w.word))).length = 1) :
    (processWords cfg oracle latency noCtrl st).err = none ∧
      (processWords cfg oracle latency noCtrl st).store.results.length = 10 ∧
      ((processWords cfg oracle latency noCtrl st).store.results.filter
        (·.success)).length = 9 ∧
      ((processWords cfg oracle latency noCtrl st).store.results.filter
        fun r => !r.success).length = 1 ∧
      (∀ r ∈ (processWords cfg oracle latency noCtrl st).store.results,
        ∃ w ∈ ws, r.wordId = w.id ∧ r.originalWord = w.word ∧
          r.success = oracleOk (oracle w.word)) ∧
      ((processWords cfg oracle latency noCtrl st).store.session.map
        fun s => (s.status, s.failedWords)) = some (.completed, 1) := by
  -- the frozen id list selects the whole table
  have hfilter : st.words.filter (·.id ∈ ws.map (·.id)) = ws := by
    rw [hws]
    apply List.filter_eq_self.mpr
    intro w hw
    exact decide_eq_true (List.mem_map_of_mem (·.id) hw)
  have hperm : List.Perm (sortWordsById ws) ws := sortByLe_perm _ ws
  have hlen' : (sortWordsById ws).length = 10 := by
    unfold sortWordsById
    rw [sortByLe_length]
    exact hlen
  have hne : sortWordsById ws ≠ [] := by
    intro hc
    rw [hc] at hlen'
    simp at hlen'
  have hchunks : chunkArray (sortWordsById ws) cfg.chunkSize = [sortWordsById ws] :=
    chunkArray_single _ _ hne (by rw [hlen', hcs]) (by rw [hcs]; decide)
  -- run decomposition
  rcases hrun : runChunks cfg oracle latency (sortCategories st.categories)
      (sortLanguages st.languages) (ws.map (·.id)).length
      (chunkArray (sortWordsById (st.words.filter (·.id ∈ ws.map (·.id))))
        cfg.chunkSize).length noCtrl
      (chunkArray (sortWordsById (st.words.filter (·.id ∈ ws.map (·.id))))
        cfg.chunkSize).enum
      { st with session := some { createSession cfg (ws.map (·.id)) with
          status := .processing, startedAt := some () } } [] 0
    with ⟨stOut, timesOut, pwOut, evs⟩
  rw [processWords_fresh cfg oracle latency noCtrl st (ws.map (·.id)) stOut
    timesOut pwOut evs hs hcats hrun]
  dsimp only
  -- reduce the loop to its single chunk
  rw [hfilter, hchunks] at hrun
  have henum : ([sortWordsById ws]).enum = [(0, sortWordsById ws)] := rfl
  rw [henum] at hrun
  simp only [List.length_singleton] at hrun
  -- dispatch the single chunk
  obtain ⟨hsess2, hres2, hmap2⟩ := processChunk_spec cfg oracle latency
    (sortCategories st.categories) (sortLanguages st.languages) (sortWordsById ws)
    (updateSessionProgress { st with session := some { createSession cfg (ws.map (·.id)) with
        status := .processing, startedAt := some () } } 0 0) []
  rcases hpc : processChunk cfg oracle latency (sortCategories st.categories)
      (sortLanguages st.languages) (sortWordsById ws)
      (updateSessionProgress { st with session := some { createSession cfg (ws.map (·.id)) with
          status := .processing, startedAt := some () } } 0 0) []
    with ⟨results0, st2, times2, evs0⟩
  rw [hpc] at hsess2 hres2 hmap2
  dsimp only at hsess2 hres2 hmap2
  simp only [runChunks, hpc, noCtrl] at hrun
  obtain ⟨hstOut, htimesOut, hpwOut, hevs⟩ :
      updateSessionStats st2 ((results0.filter (·.success)).length)
        ((results0.filter fun r => !r.success).length) results0 = stOut ∧
      times2 = timesOut ∧ 0 + results0.length = pwOut ∧
      evs0 ++ [Event.chunkComplete (0 + 1) 1 (0 + results0.length)
        (ws.map (·.id)).length
        (getProcessingStats (updateSessionStats st2
          ((results0.filter (·.success)).length)
          ((results0.filter fun r => !r.success).length) results0) times2)] = evs := by
    simpa [Prod.ext_iff] using hrun
  -- the final result ledger is exactly the chunk's rows
  have hresults : (completeSession stOut).results = results0 := by
    rw [completeSession_results, ← hstOut, updateSessionStats_results, hres2,
      updateSessionProgress_results]
    show st.results ++ results0 = results0
    rw [hres0, List.nil_append]
  -- counting successes via the projected triples
  have hcountL : ∀ p : Bool → Bool,
      (results0.filter (fun r => p r.success)).length =
        (ws.filter (fun w => p (oracleOk (oracle w.word)))).length := by
    intro p
    rw [← List.countP_eq_length_filter, ← List.countP_eq_length_filter]
    have h1 : (results0.map (fun r => (r.wordId, r.originalWord, r.success))).countP
        (fun t => p t.2.2) = results0.countP (fun r => p r.success) :=
      List.countP_map _ _ _
    have h2 : ((sortWordsById ws).map
        (fun w => (w.id, w.word, oracleOk (oracle w.word)))).countP
        (fun t => p t.2.2) =
        (sortWordsById ws).countP (fun w => p (oracleOk (oracle w.word))) :=
      List.countP_map _ _ _
    rw [← h1, hmap2, h2]
    exact hperm.countP_eq _
  have hn : results0.length = 10 := by
    have hmlen := congrArg List.length hmap2
    simpa [hlen'] using hmlen
  have hfail1 : (results0.filter fun r => !r.success).length = 1 := by
    have h := hcountL (fun b => !b)
    exact h.trans hfail
  have hsucc9 : (results0.filter (·.success)).length = 9 := by
    have h := hcountL id
    simp only [id_eq] at h
    have hsplitr := length_filter_add_length_filter_not results0 (·.success)
    rw [hn] at hsplitr
    omega
  refine ⟨rfl, ?_, ?_, ?_, ?_, ?_⟩
  · rw [hresults]
    exact hn
  · rw [hresults]
    exact hsucc9
  · rw [hresults]
    exact hfail1
  · rw [hresults]
    intro r hr
    have hmem : (r.wordId, r.originalWord, r.success) ∈
        (sortWordsById ws).map (fun w => (w.id, w.word, oracleOk (oracle w.word))) := by
      rw [← hmap2]
      exact List.mem_map_of_mem _ hr
    obtain ⟨w, hw, heq⟩ := List.mem_map.mp hmem
    refine ⟨w, hperm.mem_iff.mp hw, ?_, ?_, ?_⟩ <;>
      simp only [Prod.mk.injEq] at heq
    · exact heq.1.symm
    · exact heq.2.1.symm
    · exact heq.2.2.symm
  · -- final session: completed, `failedWords = 1`
    have hs1 := updateSessionProgress_session
      { st with session := some { createSession cfg (ws.map (·.id)) with
          status := .processing, startedAt := some () } }
      { createSession cfg (ws.map (·.id)) with
        status := .processing, startedAt := some () } 0 0 rfl
    have hs2 := hsess2.trans hs1
    have hs3 := updateSessionStats_session st2 _
      ((results0.filter (·.success)).length)
      ((results0.filter fun r => !r.success).length) results0 hs2
    rw [hstOut] at hs3
    have hcomp := completeSession_session stOut _ hs3
    rw [hcomp]
    simp [hfail1, createSession]

/-- C5 witness: the ten-word store with `c5oracle` (throws exactly on
`"w7"`) run in parallel mode. -/
theorem processWords_per_item_isolation_witness :
    c5run.err = none ∧ c5run.store.results.length = 10 ∧
      (c5run.store.results.filter (·.success)).length = 9 ∧
      (c5run.store.results.filter fun r => !r.success).length = 1 ∧
      (c5run.store.session.map fun s => (s.status, s.failedWords)) =
        some (.completed, 1) := by
  obtain ⟨h1, h2, h3, h4, _, h6⟩ := processWords_per_item_isolation c5cfg c5oracle
    (fun _ => 10) c5store c5words rfl rfl rfl (by decide) rfl (by decide) rfl
    (by decide)
  exact ⟨h1, h2, h3, h4, h6⟩

end Categorizer
